import Mathlib

/-!
Verification development for the workspace-merge engine of
`crates/but-workspace/src/commit.rs` (GitButler).

The engine `WorkspaceCommit::from_new_merge_with_metadata` consumes an ordered
list of workspace stacks, resolves them against a commit graph, and folds their
trees into one workspace merge tree, attributing conflicts to specific stacks.
Object ids, tree ids and graph segment indices are modelled as `Nat`; ref names
as `String`.  The external collaborators (graph accessor, tree-merge primitive,
object store) are an `Env` of functions, exactly the operations the source
calls on them.  Fallible collaborator calls return `Option`; the `todo!` on the
`UnmergedTree` relation and the `bail!` paths are an `EngineError`.  The
unbounded `'retry_loop: loop` is modelled with explicit fuel; the development
proves the fuel bound used by the top-level entry point is never exhausted.
-/

namespace ButWorkspace

/-- Hash kind of the repository object database (`gix::hash::Kind`). -/
inductive HashKind
  | sha1
  | sha256
deriving DecidableEq

/-- `gix::actor::Signature`, reduced to the fields the code writes. -/
structure Signature where
  name : String
  email : String
  time : Nat
deriving DecidableEq

/-- The process environment and clock read by `commit_time` in the source
(`GIT_COMMITTER_DATE` variable, falling back to the current local/UTC time),
passed explicitly since the embedding is pure. -/
structure TimeEnv where
  git_committer_date : Option Nat
  now : Nat
deriving DecidableEq

/-- `gix::objs::Commit`, reduced to the fields the code reads or writes. -/
structure Commit where
  tree : Nat
  parents : List Nat
  committer : Signature
  author : Signature
  encoding : Option String
  message : String
  extra_headers : List (String × String)
deriving DecidableEq

/-- A minimal stack for use by `WorkspaceCommit::new_from_stacks`. -/
structure Stack where
  tip : Nat
  name : Option String
deriving DecidableEq

/-- A minimal stack to represent a stack that conflicted. -/
structure ConflictingStack where
  tip : Nat
  ref_name : String
deriving DecidableEq

/-- The relation of a workspace stack to the workspace commit
(`but_core::ref_metadata::WorkspaceCommitRelation`). -/
inductive WorkspaceCommitRelation
  | Merged
  | UnmergedTree
  | Outside
deriving DecidableEq

/-- One branch of a workspace stack; only its ref name is read by the engine
(via `s.branches.first().map(|b| b.ref_name)`). -/
structure WorkspaceStackBranch where
  ref_name : String
deriving DecidableEq

/-- A stack as stored in workspace metadata: its branches (top-most first) and
its relation tag, the fields `from_new_merge_with_metadata` reads. -/
structure WorkspaceStack where
  branches : List WorkspaceStackBranch
  workspacecommit_relation : WorkspaceCommitRelation
deriving DecidableEq

/-- The outcome of a workspace-merge operation via
`WorkspaceCommit::from_new_merge_with_metadata`. -/
structure Outcome where
  workspace_commit_id : Nat
  «stacks» : List Stack
  missing_stacks : List String
  conflicting_stacks : List ConflictingStack
deriving DecidableEq

/-- Per-candidate merge state of the engine (the local `enum Instruction`). -/
inductive Instruction
  | Merge
  | MergeTrial (hero_sidx : Nat) (hero_tree_id : Nat)
  | Skip
  | CertainConflict
deriving DecidableEq

/-- `Instruction::should_skip`: only `Merge` and `MergeTrial` are active. -/
def Instruction.should_skip : Instruction → Bool
  | .Merge | .MergeTrial _ _ => false
  | .Skip | .CertainConflict => true

/-- One element of the engine's `tips` vector:
`(mode, ref_name, commit_id, sidx)`. -/
structure TipEntry where
  mode : Instruction
  ref_name : String
  commit_id : Nat
  sidx : Nat
deriving DecidableEq

/-- The external collaborators of the engine: the graph accessor
(`segment_and_commit_by_ref_name`, `first_merge_base`, `tip_skip_empty`), the
repository (`peel_to_tree`, `merge_trees`, committer configuration, object
write) and the process environment for timestamps. -/
structure Env where
  resolve : String → Option (Nat × Nat)
  peel_to_tree : Nat → Option Nat
  first_merge_base : Nat → Nat → Option Nat
  tip_skip_empty : Nat → Option Nat
  merge_trees : Nat → Nat → Nat → Nat × Bool
  committer_time : Option Nat
  time_env : TimeEnv
  write_object : Commit → Nat
  object_hash : HashKind

/-- Errors of the engine: the `todo!` placeholder for `UnmergedTree`, every
`bail!`/`?`-propagated failure (carrying its message), and exhaustion of the
fuel that models the unbounded `'retry_loop`. -/
inductive EngineError
  | unimplementedUnmergedTree
  | fatal (msg : String)
  | outOfFuel
deriving DecidableEq

/-- Decidable equality of `Except` results, for evaluating concrete runs. -/
instance {ε α : Type} [DecidableEq ε] [DecidableEq α] : DecidableEq (Except ε α)
  | .error a, .error b =>
    if h : a = b then .isTrue (by rw [h]) else .isFalse (by intro hc; injection hc; contradiction)
  | .error _, .ok _ => .isFalse (fun hc => Except.noConfusion hc)
  | .ok _, .error _ => .isFalse (fun hc => Except.noConfusion hc)
  | .ok a, .ok b =>
    if h : a = b then .isTrue (by rw [h]) else .isFalse (by intro hc; injection hc; contradiction)

def peel_failed_msg : String := "failed to peel commit to tree"

def merge_base_failed_msg : String := "Could not find merge-base between segments"

def merge_trial_conflict_msg : String :=
  "BUG: Found stack in merge-trial, even though these should not fail without the hero merged in"

def no_allowed_stack_msg : String :=
  "BUG: if there was no allowed stack in front, then we are not here as no merge can be done with just one branch"

def merge_trial_unconcluded_msg : String :=
  "BUG: found a merge-trial, even though trial should be concluded by now"

def merge_trials_twice_msg : String :=
  "BUG: somehow we managed to try to run merge-trials twice, probably leading to an infinite loop"

def cannot_merge_nothing_msg : String :=
  "BUG: Cannot merge nothing, no tips ended up in the graph"

def loop_ran_once_msg : String := "having stacks means the loop ran once"

/-- Category-shortening of a full ref name (`gix` `FullName::shorten`),
modelled for the local-branch category: `refs/heads/x` becomes `x`. -/
def refs_heads : String := "refs/heads/"

/-- See `refs_heads`. -/
def shorten (n : String) : String :=
  if refs_heads.data.isPrefixOf n.data then { data := n.data.drop refs_heads.data.length }
  else n

/-- `commit_time`: the override variable if parseable, otherwise now. -/
def commit_time (te : TimeEnv) : Nat := te.git_committer_date.getD te.now

/-- `commit_signature`: the fixed GitButler service identity. -/
def commit_signature (time : Nat) : Signature :=
  { name := "GitButler", email := "gitbutler@gitbutler.com", time := time }

/-- The fixed title line of every managed workspace commit. -/
def GITBUTLER_WORKSPACE_COMMIT_TITLE : String := "GitButler Workspace Commit"

/-- The id of the empty tree for the given hash kind
(`gix::ObjectId::empty_tree`), a fixed constant per kind. -/
def emptyTree : HashKind → Nat
  | .sha1 => 0
  | .sha256 => 1

/-- Everything `new_from_stacks` pushes onto the message after the title. -/
def workspace_commit_body (stackList : List Stack) : String :=
  "\n\n"
    ++ (if stackList.isEmpty then
          "This is placeholder commit and will be replaced by a merge of your virtual branches.\n\n"
        else
          "This is a merge commit of the virtual branches in your workspace.\n\n")
    ++ "Due to GitButler managing multiple virtual branches, you cannot switch back and\n"
    ++ "forth between git branches and virtual branches easily. \n\n"
    ++ "If you switch to another branch, GitButler will need to be reinitialized.\n"
    ++ "If you commit on this branch, GitButler will throw it away.\n\n"
    ++ (if stackList.isEmpty then ""
        else
          "Here are the branches that are currently applied:\n"
            ++ String.join (stackList.map (fun branch =>
                (match branch.name with
                 | some name => " - " ++ name ++ "\n"
                 | none => "")
                  ++ "   branch head: " ++ toString branch.tip ++ "\n")))
    ++ "For more information about what we are doing here, check out our docs:\n"
    ++ "https://docs.gitbutler.com/features/branch-management/integration-branch\n"

/-- `WorkspaceCommit::new_from_stacks`: build the in-memory workspace commit
presenting itself as the merge of `stacks` (tree still to be set by caller). -/
def new_from_stacks (stackList : List Stack) (object_hash : HashKind) (te : TimeEnv) : Commit :=
  { tree := emptyTree object_hash
    parents := stackList.map (fun s => s.tip)
    committer := commit_signature (commit_time te)
    author := commit_signature (commit_time te)
    encoding := some "UTF-8"
    message := GITBUTLER_WORKSPACE_COMMIT_TITLE ++ workspace_commit_body stackList
    extra_headers := [] }

/-- `WorkspaceCommit::fixup_times`: overwrite author and committer time with
the repository committer time when it is resolvable. -/
def fixup_times (c : Commit) (env : Env) : Commit :=
  match env.committer_time with
  | some t =>
    { c with
        committer := { c.committer with time := t }
        author := { c.author with time := t } }
  | none => c

/-- Modelled from the spec: `but_graph::projection::commit::is_managed_workspace_by_message`
is not part of the sources under review; the spec states that detection of a
managed workspace commit is a text-pattern match over the message against the
fixed title line, with no side channel. -/
def is_managed_workspace_by_message (message : String) : Bool :=
  GITBUTLER_WORKSPACE_COMMIT_TITLE.data.isPrefixOf message.data

/-- `WorkspaceCommit::is_managed`: detection over the commit message. -/
def is_managed (c : Commit) : Bool :=
  is_managed_workspace_by_message c.message

/-- `compute_merge_base`: first merge base of two segments, then the single
reachable commit of the base segment, peeled to its tree. Returns
`(base tree id, base segment index)`; `none` is fatal in the engine. -/
def compute_merge_base (env : Env) (left right : Nat) : Option (Nat × Nat) := do
  let base_sidx ← env.first_merge_base left right
  let base_commit ← env.tip_skip_empty base_sidx
  let base_tree ← env.peel_to_tree base_commit
  pure (base_tree, base_sidx)

/-- Preprocessing of the input stacks (the iterator chain building `tips`):
drop stacks with no branches, drop `Outside` stacks, fail on `UnmergedTree`
(the `todo!` placeholder), and resolve the remaining ref names, recording
unresolvable ones as missing. Returns `(missing_stacks, tips)`. -/
def preprocess (resolve : String → Option (Nat × Nat)) :
    List WorkspaceStack → Except EngineError (List String × List TipEntry)
  | [] => .ok ([], [])
  | s :: rest =>
    match s.branches.head? with
    | none => preprocess resolve rest
    | some b =>
      match s.workspacecommit_relation with
      | .Outside => preprocess resolve rest
      | .UnmergedTree => .error .unimplementedUnmergedTree
      | .Merged =>
        match resolve b.ref_name with
        | none => (preprocess resolve rest).map (fun p => (b.ref_name :: p.1, p.2))
        | some (commit_id, sidx) =>
          (preprocess resolve rest).map
            (fun p => (p.1, TipEntry.mk .Merge b.ref_name commit_id sidx :: p.2))

/-- The backward search `tips[..tip_idx].iter_mut().rev().find(active)` plus
the `Skip` marking, on the reversed prefix: mark the first active entry. -/
def markNearestActive : List TipEntry → Option (List TipEntry)
  | [] => none
  | e :: rest =>
    if e.mode.should_skip then (markNearestActive rest).map (fun l => e :: l)
    else some ({ e with mode := .Skip } :: rest)

/-- The attribution scan over `tips[..tip_idx]` run when the hero merged
cleanly: the first `Skip` becomes `CertainConflict`, later `Skip`s become
`MergeTrial` carrying the hero position and tree; finding a `MergeTrial` is a
bug. Returns the rewritten prefix and whether any trial was created. -/
def reclassifySkips (hero_sidx hero_tree_id : Nat) :
    List TipEntry → Bool → Except String (List TipEntry × Bool)
  | [], _ => .ok ([], false)
  | e :: rest, saw =>
    match e.mode with
    | .Merge => (reclassifySkips hero_sidx hero_tree_id rest saw).map (fun p => (e :: p.1, p.2))
    | .MergeTrial _ _ => .error merge_trial_unconcluded_msg
    | .CertainConflict =>
      (reclassifySkips hero_sidx hero_tree_id rest true).map (fun p => (e :: p.1, p.2))
    | .Skip =>
      if saw then
        (reclassifySkips hero_sidx hero_tree_id rest saw).map
          (fun p => ({ e with mode := .MergeTrial hero_sidx hero_tree_id } :: p.1, true))
      else
        (reclassifySkips hero_sidx hero_tree_id rest true).map
          (fun p => ({ e with mode := .CertainConflict } :: p.1, p.2))

/-- Result of one left-to-right pass over the tips (`'tips_loop`): the pass
ran to the end, or a restart of `'retry_loop` was taken (distinguishing the
hero-conflict restart from the merge-trials restart, whose effect on
`ran_merge_trials_loop_safety` differs), or a `bail!`/`?` fired. -/
inductive PassOutcome
  | finished (tips : List TipEntry) (merge_tree_id : Option Nat)
      (previous_tip : Option (Nat × Nat))
  | restartHero (tips : List TipEntry)
  | restartTrials (tips : List TipEntry)
  | fatal (msg : String)
deriving DecidableEq

/-- The body of `'tips_loop`, as a zipper: `done` is the already-processed
prefix `tips[..tip_idx]` in reverse, `todo` the rest; `prev_base_sidx`,
`merge_tree_id` and `previous_tip` are the running-merge state. -/
def runPassAux (env : Env) (hero : Option String) :
    List TipEntry → List TipEntry → Option Nat → Option Nat → Option (Nat × Nat) → PassOutcome
  | done, [], _prev_base_sidx, merge_tree_id, previous_tip =>
    .finished done.reverse merge_tree_id previous_tip
  | done, e :: rest, prev_base_sidx, merge_tree_id, previous_tip =>
    if e.mode.should_skip then
      runPassAux env hero (e :: done) rest prev_base_sidx merge_tree_id previous_tip
    else
      match env.peel_to_tree e.commit_id with
      | none => .fatal peel_failed_msg
      | some this_tree_id =>
        match previous_tip with
        | none =>
          runPassAux env hero (e :: done) rest prev_base_sidx merge_tree_id
            (some (this_tree_id, e.sidx))
        | some (prev_tree_id, prev_sidx) =>
          match compute_merge_base env (prev_base_sidx.getD prev_sidx) e.sidx with
          | none => .fatal merge_base_failed_msg
          | some (base_tree_id, base_sidx) =>
            if (env.merge_trees base_tree_id (merge_tree_id.getD prev_tree_id) this_tree_id).2 then
              match e.mode with
              | .MergeTrial _ _ => .fatal merge_trial_conflict_msg
              | _ =>
                if hero = some e.ref_name then
                  match markNearestActive done with
                  | none => .fatal no_allowed_stack_msg
                  | some done2 => .restartHero (done2.reverse ++ e :: rest)
                else
                  runPassAux env hero ({ e with mode := .Skip } :: done) rest prev_base_sidx
                    merge_tree_id previous_tip
            else
              if hero = some e.ref_name then
                match reclassifySkips e.sidx this_tree_id done.reverse false with
                | .error msg => .fatal msg
                | .ok (pre2, has_trials) =>
                  if has_trials then .restartTrials (pre2 ++ e :: rest)
                  else
                    runPassAux env hero (e :: pre2.reverse) rest (some base_sidx)
                      (some (env.merge_trees base_tree_id (merge_tree_id.getD prev_tree_id) this_tree_id).1)
                      (some (this_tree_id, e.sidx))
              else
                match e.mode with
                | .MergeTrial hero_sidx hero_tree_id =>
                  match compute_merge_base env base_sidx hero_sidx with
                  | none => .fatal merge_base_failed_msg
                  | some (base_tree2, _base_sidx2) =>
                    if (env.merge_trees base_tree2
                          (env.merge_trees base_tree_id (merge_tree_id.getD prev_tree_id) this_tree_id).1
                          hero_tree_id).2 then
                      runPassAux env hero ({ e with mode := .CertainConflict } :: done) rest
                        prev_base_sidx merge_tree_id previous_tip
                    else
                      runPassAux env hero ({ e with mode := .Merge } :: done) rest (some base_sidx)
                        (some (env.merge_trees base_tree_id (merge_tree_id.getD prev_tree_id) this_tree_id).1)
                        (some (this_tree_id, e.sidx))
                | _ =>
                  runPassAux env hero (e :: done) rest (some base_sidx)
                    (some (env.merge_trees base_tree_id (merge_tree_id.getD prev_tree_id) this_tree_id).1)
                    (some (this_tree_id, e.sidx))

/-- One full `'tips_loop` pass from the start of the tips vector. -/
def runPass (env : Env) (hero : Option String) (tips : List TipEntry) : PassOutcome :=
  runPassAux env hero [] tips none none none

/-- The `'retry_loop`, with explicit fuel; `ran_merge_trials` is the
`ran_merge_trials_loop_safety` flag. On success returns the final tips and the
running-merge state needed after the loop. -/
def retryLoop (env : Env) (hero : Option String) :
    Nat → Bool → List TipEntry → Except EngineError (List TipEntry × Option Nat × Option (Nat × Nat))
  | 0, _, _ => .error .outOfFuel
  | fuel + 1, ran_merge_trials, tips =>
    match runPass env hero tips with
    | .fatal msg => .error (.fatal msg)
    | .restartHero tips2 => retryLoop env hero fuel ran_merge_trials tips2
    | .restartTrials tips2 =>
      if ran_merge_trials then .error (.fatal merge_trials_twice_msg)
      else retryLoop env hero fuel true tips2
    | .finished tips2 merge_tree_id previous_tip => .ok (tips2, merge_tree_id, previous_tip)

/-- The final fold over `tips` classifying each entry into merged `stacks`
(short name, original commit id) or `conflicting_stacks` (full ref name). -/
def classify (tips : List TipEntry) : List Stack × List ConflictingStack :=
  tips.foldl
    (fun sc e =>
      if e.mode.should_skip then
        (sc.1, sc.2 ++ [{ tip := e.commit_id, ref_name := e.ref_name }])
      else
        (sc.1 ++ [{ tip := e.commit_id, name := some (shorten e.ref_name) }], sc.2))
    ([], [])

/-- Everything `from_new_merge_with_metadata` computes before writing the
workspace commit object: the unwritten commit plus the three buckets. -/
structure CoreOut where
  commit : Commit
  «stacks» : List Stack
  missing_stacks : List String
  conflicting_stacks : List ConflictingStack

/-- `WorkspaceCommit::from_new_merge_with_metadata`, up to (but excluding) the
final `repo.write_object`: preprocessing, the retry loop, classification, the
empty-stacks check, tree selection (running merge tree, or the sole stack's
own tree), commit construction and time fixup. -/
def from_new_merge_core (env : Env) (stackList : List WorkspaceStack) (hero_stack : Option String) :
    Except EngineError CoreOut :=
  match preprocess env.resolve stackList with
  | .error e => .error e
  | .ok (missing_stacks, tips) =>
    match retryLoop env hero_stack (2 * tips.length + 3) false tips with
    | .error e => .error e
    | .ok (tips2, merge_tree_id, previous_tip) =>
      if (classify tips2).1.isEmpty then .error (.fatal cannot_merge_nothing_msg)
      else
        match merge_tree_id, previous_tip with
        | some mt, _ =>
          .ok { commit :=
                  fixup_times
                    { new_from_stacks (classify tips2).1 env.object_hash env.time_env with
                        tree := mt } env
                «stacks» := (classify tips2).1
                missing_stacks := missing_stacks
                conflicting_stacks := (classify tips2).2 }
        | none, some pt =>
          .ok { commit :=
                  fixup_times
                    { new_from_stacks (classify tips2).1 env.object_hash env.time_env with
                        tree := pt.1 } env
                «stacks» := (classify tips2).1
                missing_stacks := missing_stacks
                conflicting_stacks := (classify tips2).2 }
        | none, none => .error (.fatal loop_ran_once_msg)

/-- `WorkspaceCommit::from_new_merge_with_metadata`: the core computation
followed by writing the commit object, producing the `Outcome`. -/
def from_new_merge_with_metadata (env : Env) (stackList : List WorkspaceStack)
    (hero_stack : Option String) : Except EngineError Outcome :=
  (from_new_merge_core env stackList hero_stack).map
    (fun c =>
      { workspace_commit_id := env.write_object c.commit
        «stacks» := c.stacks
        missing_stacks := c.missing_stacks
        conflicting_stacks := c.conflicting_stacks })

/-- The ref names of the input stacks tagged `Merged` (taken from each stack's
top-most branch; a stack with no branches contributes no name). -/
def mergedFirstNames (stackList : List WorkspaceStack) : List String :=
  stackList.filterMap (fun s =>
    match s.branches.head? with
    | none => none
    | some b =>
      match s.workspacecommit_relation with
      | .Merged => some b.ref_name
      | .UnmergedTree => none
      | .Outside => none)

/-- Number of active (non-skipped) candidates. -/
def activeCount (tips : List TipEntry) : Nat :=
  tips.countP (fun e => !e.mode.should_skip)

/-- Number of merge-trials passes the retry loop enters; mirrors the recursion
of `retryLoop`, counting the `restartTrials` transitions actually taken. -/
def countTrials (env : Env) (hero : Option String) : Nat → Bool → List TipEntry → Nat
  | 0, _, _ => 0
  | fuel + 1, ran_merge_trials, tips =>
    match runPass env hero tips with
    | .restartHero tips2 => countTrials env hero fuel ran_merge_trials tips2
    | .restartTrials tips2 =>
      if ran_merge_trials then 0 else 1 + countTrials env hero fuel true tips2
    | _ => 0

/-- The candidate-invariant part of a tip entry (everything but the mode). -/
def tipKey (e : TipEntry) : String × Nat × Nat := (e.ref_name, e.commit_id, e.sidx)

/-- The tips carried by a pass outcome, when there are any. -/
def passTips : PassOutcome → Option (List TipEntry)
  | .finished t _ _ => some t
  | .restartHero t => some t
  | .restartTrials t => some t
  | .fatal _ => none

/-- Exactly one of three alternatives holds. -/
def exactlyOneOfThree (a b c : Prop) : Prop :=
  (a ∨ b ∨ c) ∧ ¬(a ∧ b) ∧ ¬(a ∧ c) ∧ ¬(b ∧ c)

/-! ## Concrete collaborator environments used by witnesses and counterexamples -/

/-- A small graph with two independent branches `refs/heads/a`, `refs/heads/b`
whose trees always merge cleanly. -/
def envA : Env :=
  { resolve := fun n =>
      if n = "refs/heads/a" then some (1, 10)
      else if n = "refs/heads/b" then some (2, 11)
      else none
    peel_to_tree := fun c =>
      if c = 0 then some 20 else if c = 1 then some 21 else if c = 2 then some 22 else none
    first_merge_base := fun _ _ => some 9
    tip_skip_empty := fun _ => some 0
    merge_trees := fun _ _ _ => (30, false)
    committer_time := some 50
    time_env := { git_committer_date := some 40, now := 100 }
    write_object := fun _ => 7
    object_hash := .sha1 }

/-- Input for `envA`: both stacks applied and merged. -/
def stacksAB : List WorkspaceStack :=
  [ { branches := [{ ref_name := "refs/heads/a" }], workspacecommit_relation := .Merged },
    { branches := [{ ref_name := "refs/heads/b" }], workspacecommit_relation := .Merged } ]

/-- Input whose only stack does not resolve in the graph of `envA`. -/
def stacksMissingOnly : List WorkspaceStack :=
  [ { branches := [{ ref_name := "refs/heads/zzz" }], workspacecommit_relation := .Merged } ]

/-- A graph with branches `b`, `n` (twice) and hero `h`, where the tree of `h`
conflicts with the content of `b` and with any merge containing it, while `n`
merges cleanly with everything. Trees: base 20, b 21, n 22, h 23; merged
trees 34 (b+n) and 35 (h+n). -/
def envDup : Env :=
  { resolve := fun nm =>
      if nm = "refs/heads/b" then some (1, 10)
      else if nm = "refs/heads/n" then some (2, 11)
      else if nm = "refs/heads/h" then some (3, 12)
      else none
    peel_to_tree := fun c =>
      if c = 0 then some 20 else if c = 1 then some 21
      else if c = 2 then some 22 else if c = 3 then some 23 else none
    first_merge_base := fun _ _ => some 9
    tip_skip_empty := fun _ => some 0
    merge_trees := fun _ a b =>
      if a = 21 && b = 22 then (34, false)
      else if a = 34 && b = 23 then (0, true)
      else if a = 21 && b = 23 then (0, true)
      else if a = 23 && b = 22 then (35, false)
      else (0, true)
    committer_time := some 50
    time_env := { git_committer_date := some 40, now := 100 }
    write_object := fun _ => 7
    object_hash := .sha1 }

/-- Input for `envDup`: the stack named `refs/heads/n` appears twice. -/
def stacksDup : List WorkspaceStack :=
  [ { branches := [{ ref_name := "refs/heads/b" }], workspacecommit_relation := .Merged },
    { branches := [{ ref_name := "refs/heads/n" }], workspacecommit_relation := .Merged },
    { branches := [{ ref_name := "refs/heads/h" }], workspacecommit_relation := .Merged },
    { branches := [{ ref_name := "refs/heads/n" }], workspacecommit_relation := .Merged } ]

/-- A graph realising the attribution scenario `[g1, c, g2, h]` with hero `h`:
`h` conflicts with the content of `c` (and with any merge containing it),
while `g1` and `g2` are independent of everything. Trees: base 20, g1 21,
c 22, g2 23, h 24; merged trees 31 (g1+c), 32 (g1+c+g2), 33 (g1+h),
40 (g1+g2), 41 (g1+g2+h). -/
def envC4 : Env :=
  { resolve := fun nm =>
      if nm = "refs/heads/g1" then some (1, 10)
      else if nm = "refs/heads/c" then some (2, 11)
      else if nm = "refs/heads/g2" then some (3, 12)
      else if nm = "refs/heads/h" then some (4, 13)
      else none
    peel_to_tree := fun cm =>
      if cm = 0 then some 20 else if cm = 1 then some 21
      else if cm = 2 then some 22 else if cm = 3 then some 23
      else if cm = 4 then some 24 else none
    first_merge_base := fun _ _ => some 9
    tip_skip_empty := fun _ => some 0
    merge_trees := fun _ a b =>
      if a = 21 && b = 22 then (31, false)
      else if a = 31 && b = 23 then (32, false)
      else if a = 32 && b = 24 then (0, true)
      else if a = 31 && b = 24 then (0, true)
      else if a = 21 && b = 24 then (33, false)
      else if a = 21 && b = 23 then (40, false)
      else if a = 40 && b = 24 then (41, false)
      else (0, true)
    committer_time := some 50
    time_env := { git_committer_date := some 40, now := 100 }
    write_object := fun _ => 7
    object_hash := .sha1 }

/-- Input for `envC4`. -/
def stacksC4 : List WorkspaceStack :=
  [ { branches := [{ ref_name := "refs/heads/g1" }], workspacecommit_relation := .Merged },
    { branches := [{ ref_name := "refs/heads/c" }], workspacecommit_relation := .Merged },
    { branches := [{ ref_name := "refs/heads/g2" }], workspacecommit_relation := .Merged },
    { branches := [{ ref_name := "refs/heads/h" }], workspacecommit_relation := .Merged } ]

/-- The tips `preprocess` produces for `stacksC4` under `envC4`. -/
def tipsC4 : List TipEntry :=
  [ { mode := .Merge, ref_name := "refs/heads/g1", commit_id := 1, sidx := 10 },
    { mode := .Merge, ref_name := "refs/heads/c", commit_id := 2, sidx := 11 },
    { mode := .Merge, ref_name := "refs/heads/g2", commit_id := 3, sidx := 12 },
    { mode := .Merge, ref_name := "refs/heads/h", commit_id := 4, sidx := 13 } ]

/-- An environment for exercising the merge-trials restart directly on a tips
vector that already contains skipped entries before the hero. -/
def envT : Env :=
  { resolve := fun _ => none
    peel_to_tree := fun c =>
      if c = 0 then some 20 else if c = 1 then some 21 else if c = 4 then some 24 else none
    first_merge_base := fun _ _ => some 9
    tip_skip_empty := fun _ => some 0
    merge_trees := fun _ _ _ => (30, false)
    committer_time := none
    time_env := { git_committer_date := none, now := 0 }
    write_object := fun _ => 7
    object_hash := .sha1 }

/-- Tips with two skipped candidates in front of the hero `refs/heads/h`. -/
def tipsT : List TipEntry :=
  [ { mode := .Merge, ref_name := "refs/heads/a", commit_id := 1, sidx := 10 },
    { mode := .Skip, ref_name := "refs/heads/x", commit_id := 2, sidx := 11 },
    { mode := .Skip, ref_name := "refs/heads/y", commit_id := 3, sidx := 12 },
    { mode := .Merge, ref_name := "refs/heads/h", commit_id := 4, sidx := 13 } ]


/-- The invariant one pass preserves, relative to its input tips: the
candidate keys are unchanged in every non-fatal outcome, and a hero-conflict
restart strictly decreases the number of active candidates. -/
def passInv (input : List TipEntry) : PassOutcome → Prop
  | .finished t _ _ => t.map tipKey = input.map tipKey
  | .restartHero t => t.map tipKey = input.map tipKey ∧ activeCount t < activeCount input
  | .restartTrials t => t.map tipKey = input.map tipKey
  | .fatal _ => True


/-- The spec's Scenario A: three stacks `x`, `y`, `z` with hero `z`, where the
tree of `y` conflicts with `x` and `z` merges cleanly with `x`. Trees: base
20, x 21, y 22, z 23; merged tree 31 (x+z). -/
def envSA : Env :=
  { resolve := fun nm =>
      if nm = "refs/heads/x" then some (1, 10)
      else if nm = "refs/heads/y" then some (2, 11)
      else if nm = "refs/heads/z" then some (3, 12)
      else none
    peel_to_tree := fun c =>
      if c = 0 then some 20 else if c = 1 then some 21
      else if c = 2 then some 22 else if c = 3 then some 23 else none
    first_merge_base := fun _ _ => some 9
    tip_skip_empty := fun _ => some 0
    merge_trees := fun _ a b =>
      if a = 21 && b = 22 then (0, true)
      else if a = 21 && b = 23 then (31, false)
      else (0, true)
    committer_time := some 50
    time_env := { git_committer_date := some 40, now := 100 }
    write_object := fun _ => 7
    object_hash := .sha1 }

/-- Input for `envSA`. -/
def stacksSA : List WorkspaceStack :=
  [ { branches := [{ ref_name := "refs/heads/x" }], workspacecommit_relation := .Merged },
    { branches := [{ ref_name := "refs/heads/y" }], workspacecommit_relation := .Merged },
    { branches := [{ ref_name := "refs/heads/z" }], workspacecommit_relation := .Merged } ]

/-- The tips `preprocess` produces for `stacksSA` under `envSA`. -/
def tipsSA : List TipEntry :=
  [ { mode := .Merge, ref_name := "refs/heads/x", commit_id := 1, sidx := 10 },
    { mode := .Merge, ref_name := "refs/heads/y", commit_id := 2, sidx := 11 },
    { mode := .Merge, ref_name := "refs/heads/z", commit_id := 3, sidx := 12 } ]


/-! ## Preprocessing lemmas -/

/-- A stack with no branches is dropped by preprocessing before its relation
tag is even examined. -/
theorem preprocess_drop_empty_branches (r : String → Option (Nat × Nat))
    (l₁ l₂ : List WorkspaceStack) (e : WorkspaceStack) (he : e.branches = []) :
    preprocess r (l₁ ++ e :: l₂) = preprocess r (l₁ ++ l₂) := by
  induction l₁ with
  | nil => simp [preprocess, he]
  | cons a l₁ ih =>
    simp only [List.cons_append, preprocess]
    simp only [List.append_eq]
    split
    · exact ih
    · split
      · exact ih
      · rfl
      · split
        · rw [ih]
        · rw [ih]

/-- An `UnmergedTree` stack with at least one branch makes preprocessing fail
with the unimplemented-relation error, wherever it sits in the input. -/
theorem preprocess_unmerged_tree (r : String → Option (Nat × Nat))
    (l₁ l₂ : List WorkspaceStack) (u : WorkspaceStack) (b : WorkspaceStackBranch)
    (bs : List WorkspaceStackBranch) (hb : u.branches = b :: bs)
    (hrel : u.workspacecommit_relation = .UnmergedTree) :
    preprocess r (l₁ ++ u :: l₂) = .error .unimplementedUnmergedTree := by
  induction l₁ with
  | nil => simp [preprocess, hb, hrel]
  | cons a l₁ ih =>
    simp only [List.cons_append, preprocess]
    simp only [List.append_eq]
    split
    · exact ih
    · split
      · exact ih
      · rfl
      · split
        · rw [ih]
          rfl
        · rw [ih]
          rfl

/-- The only error preprocessing ever produces is the unimplemented
`UnmergedTree` relation. -/
theorem preprocess_error_eq (r : String → Option (Nat × Nat)) :
    ∀ (l : List WorkspaceStack) (err : EngineError),
      preprocess r l = .error err → err = .unimplementedUnmergedTree := by
  intro l
  induction l with
  | nil => intro err h; simp [preprocess] at h
  | cons a l ih =>
    intro err h
    rcases ha : a.branches.head? with _ | b
    · simp only [preprocess, ha] at h
      exact ih err h
    · rcases hrel : a.workspacecommit_relation with _ | _ | _
      · simp only [preprocess, ha, hrel] at h
        rcases hres : r b.ref_name with _ | ⟨cid, sid⟩
        · rw [hres] at h
          cases hp : preprocess r l with
          | error e =>
            rw [hp] at h
            simp only [Except.map] at h
            injection h with h2
            exact h2 ▸ ih e hp
          | ok p => rw [hp] at h; simp [Except.map] at h
        · rw [hres] at h
          cases hp : preprocess r l with
          | error e =>
            rw [hp] at h
            simp only [Except.map] at h
            injection h with h2
            exact h2 ▸ ih e hp
          | ok p => rw [hp] at h; simp [Except.map] at h
      · simp only [preprocess, ha, hrel] at h
        injection h with h2
        exact h2.symm
      · simp only [preprocess, ha, hrel] at h
        exact ih err h

/-- The basic facts preprocessing guarantees about a successful result: every
missing name failed to resolve, every tip resolved to exactly its recorded
commit and segment with mode `Merge`, and missing names plus tip names are a
permutation of the `Merged`-tagged input names. -/
theorem preprocess_ok_facts (r : String → Option (Nat × Nat)) :
    ∀ (l : List WorkspaceStack) (m : List String) (t : List TipEntry),
      preprocess r l = .ok (m, t) →
      (∀ n ∈ m, r n = none) ∧
      (∀ e ∈ t, r e.ref_name = some (e.commit_id, e.sidx) ∧ e.mode = .Merge) ∧
      (m ++ t.map TipEntry.ref_name).Perm (mergedFirstNames l) := by
  intro l
  induction l with
  | nil =>
    intro m t h
    simp [preprocess] at h
    obtain ⟨hm, ht⟩ := h
    subst hm; subst ht
    simp [mergedFirstNames]
  | cons a l ih =>
    intro m t h
    rcases ha : a.branches.head? with _ | b
    · simp only [preprocess, ha] at h
      have := ih m t h
      simpa [mergedFirstNames, List.filterMap_cons, ha] using this
    · rcases hrel : a.workspacecommit_relation with _ | _ | _
      · -- Merged
        simp only [preprocess, ha, hrel] at h
        rcases hres : r b.ref_name with _ | ⟨cid, sid⟩
        · rw [hres] at h
          cases hp : preprocess r l with
          | error e => rw [hp] at h; simp [Except.map] at h
          | ok p =>
            rw [hp] at h
            simp only [Except.map] at h
            injection h with h2
            injection h2 with hm ht
            obtain ⟨ihm, iht, ihp⟩ := ih p.1 p.2 (by rw [hp])
            refine ⟨?_, ?_, ?_⟩
            · intro n hn
              rw [← hm] at hn
              rcases List.mem_cons.mp hn with hn | hn
              · rw [hn]; exact hres
              · exact ihm n hn
            · intro e he
              rw [← ht] at he
              exact iht e he
            · rw [← hm, ← ht]
              simp only [mergedFirstNames, List.filterMap_cons, ha, hrel]
              simpa using ihp.cons b.ref_name
        · rw [hres] at h
          cases hp : preprocess r l with
          | error e => rw [hp] at h; simp [Except.map] at h
          | ok p =>
            rw [hp] at h
            simp only [Except.map] at h
            injection h with h2
            injection h2 with hm ht
            obtain ⟨ihm, iht, ihp⟩ := ih p.1 p.2 (by rw [hp])
            refine ⟨?_, ?_, ?_⟩
            · intro n hn
              rw [← hm] at hn
              exact ihm n hn
            · intro e he
              rw [← ht] at he
              rcases List.mem_cons.mp he with he | he
              · subst he; exact ⟨hres, rfl⟩
              · exact iht e he
            · rw [← hm, ← ht]
              simp only [mergedFirstNames, List.filterMap_cons, ha, hrel, List.map_cons]
              exact (List.perm_middle).trans (ihp.cons b.ref_name)
      · -- UnmergedTree
        simp only [preprocess, ha, hrel] at h
        exact absurd h (by simp)
      · -- Outside
        simp only [preprocess, ha, hrel] at h
        have := ih m t h
        simpa [mergedFirstNames, List.filterMap_cons, ha, hrel] using this

/-! ## Classification and result-inversion lemmas -/

/-- The classifying fold, with a generalized accumulator: it appends the
active entries (as merged stacks) and the skipped entries (as conflicting
stacks), in order. -/
theorem classify_foldl (tips : List TipEntry) :
    ∀ acc : List Stack × List ConflictingStack,
      tips.foldl
        (fun sc e =>
          if e.mode.should_skip then
            (sc.1, sc.2 ++ [{ tip := e.commit_id, ref_name := e.ref_name }])
          else
            (sc.1 ++ [{ tip := e.commit_id, name := some (shorten e.ref_name) }], sc.2)) acc =
      (acc.1 ++ (tips.filter (fun e => !e.mode.should_skip)).map
          (fun e => { tip := e.commit_id, name := some (shorten e.ref_name) }),
       acc.2 ++ (tips.filter (fun e => e.mode.should_skip)).map
          (fun e => { tip := e.commit_id, ref_name := e.ref_name })) := by
  induction tips with
  | nil => intro acc; simp
  | cons e rest ih =>
    intro acc
    simp only [List.foldl_cons]
    cases hm : e.mode.should_skip
    · rw [ih]
      simp [List.filter_cons, hm, List.append_assoc]
    · rw [ih]
      simp [List.filter_cons, hm, List.append_assoc]

/-- `classify` splits the tips into active and skipped entries, in order. -/
theorem classify_eq (tips : List TipEntry) :
    classify tips =
      ((tips.filter (fun e => !e.mode.should_skip)).map
          (fun e => { tip := e.commit_id, name := some (shorten e.ref_name) }),
       (tips.filter (fun e => e.mode.should_skip)).map
          (fun e => { tip := e.commit_id, ref_name := e.ref_name })) := by
  unfold classify
  rw [classify_foldl]
  simp

/-- Inversion of a successful core run: the preprocessing and retry-loop
results it came from, and how the outcome fields are built from them. -/
theorem core_ok_inv (env : Env) (stackList : List WorkspaceStack) (hero : Option String)
    (c : CoreOut) (h : from_new_merge_core env stackList hero = .ok c) :
    ∃ (m : List String) (tips tipsF : List TipEntry) (mtid : Option Nat)
      (ptid : Option (Nat × Nat)),
      preprocess env.resolve stackList = .ok (m, tips) ∧
      retryLoop env hero (2 * tips.length + 3) false tips = .ok (tipsF, mtid, ptid) ∧
      c.stacks = (classify tipsF).1 ∧ c.conflicting_stacks = (classify tipsF).2 ∧
      c.missing_stacks = m ∧ (classify tipsF).1.isEmpty = false := by
  unfold from_new_merge_core at h
  cases hp : preprocess env.resolve stackList with
  | error e => rw [hp] at h; exact absurd h (by simp)
  | ok p =>
    obtain ⟨m, tips⟩ := p
    rw [hp] at h
    dsimp only at h
    cases hr : retryLoop env hero (2 * tips.length + 3) false tips with
    | error e => rw [hr] at h; exact absurd h (by simp)
    | ok q =>
      obtain ⟨tipsF, mtid, ptid⟩ := q
      rw [hr] at h
      dsimp only at h
      by_cases he : (classify tipsF).1.isEmpty
      · rw [if_pos he] at h; exact absurd h (by simp)
      · rw [if_neg he] at h
        refine ⟨m, tips, tipsF, mtid, ptid, rfl, hr, ?_⟩
        cases mtid with
        | some mt =>
          injection h with h2
          rw [← h2]
          exact ⟨rfl, rfl, rfl, by simpa using he⟩
        | none =>
          cases ptid with
          | some pt =>
            injection h with h2
            rw [← h2]
            exact ⟨rfl, rfl, rfl, by simpa using he⟩
          | none => exact absurd h (by simp)

/-- Inversion of a successful full run into the core run it wraps. -/
theorem with_metadata_ok_inv (env : Env) (stackList : List WorkspaceStack)
    (hero : Option String) (o : Outcome)
    (h : from_new_merge_with_metadata env stackList hero = .ok o) :
    ∃ c : CoreOut, from_new_merge_core env stackList hero = .ok c ∧
      o.stacks = c.stacks ∧ o.missing_stacks = c.missing_stacks ∧
      o.conflicting_stacks = c.conflicting_stacks ∧
      o.workspace_commit_id = env.write_object c.commit := by
  unfold from_new_merge_with_metadata at h
  cases hc : from_new_merge_core env stackList hero with
  | error e => rw [hc] at h; exact absurd h (by simp [Except.map])
  | ok c =>
    rw [hc] at h
    simp only [Except.map] at h
    injection h with h2
    exact ⟨c, rfl, by rw [← h2], by rw [← h2], by rw [← h2], by rw [← h2]⟩

/-- The full run errors exactly when the core errors, with the same error. -/
theorem with_metadata_error_iff (env : Env) (stackList : List WorkspaceStack)
    (hero : Option String) (err : EngineError) :
    from_new_merge_with_metadata env stackList hero = .error err ↔
      from_new_merge_core env stackList hero = .error err := by
  unfold from_new_merge_with_metadata
  cases hc : from_new_merge_core env stackList hero with
  | error e => simp [Except.map]
  | ok c => simp [Except.map]

/-! ## C8, C10, C9, C1 -/

/-- C8: an input containing a stack tagged `UnmergedTree` with a non-empty
branch list makes `from_new_merge_with_metadata` fail loudly with the
unimplemented-relation error: no `Outcome` is returned, so the stack is
neither merged nor recorded in `missing_stacks` or `conflicting_stacks`. -/
theorem c8_unmerged_tree_fails (env : Env) (l₁ l₂ : List WorkspaceStack)
    (u : WorkspaceStack) (b : WorkspaceStackBranch) (bs : List WorkspaceStackBranch)
    (hb : u.branches = b :: bs) (hrel : u.workspacecommit_relation = .UnmergedTree)
    (hero : Option String) :
    from_new_merge_with_metadata env (l₁ ++ u :: l₂) hero =
      .error .unimplementedUnmergedTree := by
  rw [with_metadata_error_iff]
  unfold from_new_merge_core
  rw [preprocess_unmerged_tree env.resolve l₁ l₂ u b bs hb hrel]

/-- Witness for C8 at a concrete input. -/
theorem c8_witness :
    ((⟨[⟨"refs/heads/u"⟩], .UnmergedTree⟩ : WorkspaceStack).branches = [⟨"refs/heads/u"⟩] ∧
      (⟨[⟨"refs/heads/u"⟩], .UnmergedTree⟩ : WorkspaceStack).workspacecommit_relation =
        .UnmergedTree) ∧
    from_new_merge_with_metadata envA
        (stacksAB ++ (⟨[⟨"refs/heads/u"⟩], .UnmergedTree⟩ : WorkspaceStack) :: []) none =
      .error .unimplementedUnmergedTree :=
  ⟨⟨rfl, rfl⟩,
    c8_unmerged_tree_fails envA stacksAB [] ⟨[⟨"refs/heads/u"⟩], .UnmergedTree⟩
      ⟨"refs/heads/u"⟩ [] rfl rfl none⟩

/-- C10: an input stack with an empty branches list is dropped before its
relation tag is examined; the run is identical to the run without it, so it
contributes to no bucket, and even an empty-branch `UnmergedTree` stack does
not trigger the unimplemented-relation failure. -/
theorem c10_empty_branches_dropped (env : Env) (l₁ l₂ : List WorkspaceStack)
    (e : WorkspaceStack) (he : e.branches = []) (hero : Option String) :
    from_new_merge_with_metadata env (l₁ ++ e :: l₂) hero =
      from_new_merge_with_metadata env (l₁ ++ l₂) hero := by
  unfold from_new_merge_with_metadata from_new_merge_core
  rw [preprocess_drop_empty_branches env.resolve l₁ l₂ e he]

/-- Witness for C10 at a concrete input: an empty-branch `UnmergedTree` stack
is silently dropped and the run still succeeds. -/
theorem c10_witness :
    ((⟨[], .UnmergedTree⟩ : WorkspaceStack).branches = [] ∧
      from_new_merge_with_metadata envA
          (stacksAB ++ (⟨[], .UnmergedTree⟩ : WorkspaceStack) :: []) none =
        from_new_merge_with_metadata envA (stacksAB ++ []) none) ∧
    from_new_merge_with_metadata envA (stacksAB ++ []) none =
      .ok ⟨7, [⟨1, some "a"⟩, ⟨2, some "b"⟩], [], []⟩ :=
  ⟨⟨rfl, c10_empty_branches_dropped envA stacksAB [] ⟨[], .UnmergedTree⟩ rfl none⟩,
    by decide⟩

/-- C9: the message of a commit built by `new_from_stacks` is always accepted
by the workspace-commit detector; a message that does not start with the fixed
workspace-commit title is always rejected; and detection is purely a function
of the message text. -/
theorem c9_roundtrip :
    (∀ (stackList : List Stack) (oh : HashKind) (te : TimeEnv),
        is_managed_workspace_by_message (new_from_stacks stackList oh te).message = true) ∧
    (∀ msg : String, (¬ ∃ rest, msg = GITBUTLER_WORKSPACE_COMMIT_TITLE ++ rest) →
        is_managed_workspace_by_message msg = false) ∧
    (∀ c₁ c₂ : Commit, c₁.message = c₂.message → is_managed c₁ = is_managed c₂) := by
  refine ⟨?_, ?_, ?_⟩
  · intro sl oh te
    show GITBUTLER_WORKSPACE_COMMIT_TITLE.data.isPrefixOf
        (GITBUTLER_WORKSPACE_COMMIT_TITLE ++ workspace_commit_body sl).data = true
    rw [String.data_append, List.isPrefixOf_iff_prefix]
    exact List.prefix_append _ _
  · intro msg h
    cases hv : GITBUTLER_WORKSPACE_COMMIT_TITLE.data.isPrefixOf msg.data with
    | false => exact hv
    | true =>
      exfalso
      apply h
      rw [List.isPrefixOf_iff_prefix] at hv
      obtain ⟨rest, hrest⟩ := hv
      refine ⟨{ data := rest }, ?_⟩
      apply String.ext
      rw [String.data_append, ← hrest]
  · intro c₁ c₂ h
    unfold is_managed
    rw [h]

/-- Witness for C9 at concrete inputs. -/
theorem c9_witness :
    is_managed_workspace_by_message
        (new_from_stacks [⟨5, some "main"⟩] .sha1 ⟨none, 0⟩).message = true ∧
    is_managed_workspace_by_message "hello" = false ∧
    is_managed ⟨0, [], commit_signature 0, commit_signature 0, none, "x", []⟩ =
      is_managed ⟨1, [2], commit_signature 3, commit_signature 3, some "UTF-8", "x", []⟩ :=
  ⟨c9_roundtrip.1 [⟨5, some "main"⟩] .sha1 ⟨none, 0⟩,
    c9_roundtrip.2.1 "hello" (by
      rintro ⟨r, hr⟩
      have hlen := congrArg String.length hr
      rw [String.length_append] at hlen
      have h5 : ("hello" : String).length = 5 := rfl
      have h26 : GITBUTLER_WORKSPACE_COMMIT_TITLE.length = 26 := rfl
      rw [h5, h26] at hlen
      omega),
    c9_roundtrip.2.2 _ _ rfl⟩

/-- C1: whenever `from_new_merge_with_metadata` returns an `Outcome`, its
`stacks` list is non-empty; and a run in which every candidate ends up
unmerged (skipped) returns the cannot-merge-nothing error instead. -/
theorem c1_success_nonempty :
    (∀ (env : Env) (stackList : List WorkspaceStack) (hero : Option String) (o : Outcome),
        from_new_merge_with_metadata env stackList hero = .ok o → o.stacks ≠ []) ∧
    (∀ (env : Env) (stackList : List WorkspaceStack) (hero : Option String)
        (m : List String) (tips tipsF : List TipEntry) (mtid : Option Nat)
        (ptid : Option (Nat × Nat)),
        preprocess env.resolve stackList = .ok (m, tips) →
        retryLoop env hero (2 * tips.length + 3) false tips = .ok (tipsF, mtid, ptid) →
        (∀ e ∈ tipsF, e.mode.should_skip) →
        from_new_merge_with_metadata env stackList hero =
          .error (.fatal cannot_merge_nothing_msg)) := by
  constructor
  · intro env sl hero o h
    obtain ⟨c, hc, hst, -, -, -⟩ := with_metadata_ok_inv env sl hero o h
    obtain ⟨m, tips, tipsF, mtid, ptid, -, -, hcs, -, -, hne⟩ := core_ok_inv env sl hero c hc
    rw [hst, hcs]
    intro hnil
    rw [hnil] at hne
    simp at hne
  · intro env sl hero m tips tipsF mtid ptid hp hr hall
    rw [with_metadata_error_iff]
    unfold from_new_merge_core
    rw [hp]
    dsimp only
    rw [hr]
    dsimp only
    have hemp : (classify tipsF).1.isEmpty = true := by
      rw [classify_eq]
      have : tipsF.filter (fun e => !e.mode.should_skip) = [] := by
        rw [List.filter_eq_nil_iff]
        intro e he
        simp [hall e he]
      rw [this]
      simp
    rw [if_pos hemp]

/-- Witness for C1: a successful two-stack run has non-empty `stacks`, and a
run whose only candidate cannot be resolved fails with the fatal error. -/
theorem c1_witness :
    (Outcome.mk 7 [⟨1, some "a"⟩, ⟨2, some "b"⟩] [] []).stacks ≠ [] ∧
    from_new_merge_with_metadata envA stacksMissingOnly none =
      .error (.fatal cannot_merge_nothing_msg) :=
  ⟨c1_success_nonempty.1 envA stacksAB none ⟨7, [⟨1, some "a"⟩, ⟨2, some "b"⟩], [], []⟩
      (by decide),
    c1_success_nonempty.2 envA stacksMissingOnly none ["refs/heads/zzz"] [] [] none none
      (by decide) (by decide) (by decide)⟩

/-! ## Pass invariants: keys are preserved, hero restarts make progress -/

/-- Changing only the mode leaves the candidate key unchanged. -/
theorem tipKey_set_mode (e : TipEntry) (m : Instruction) : tipKey { e with mode := m } = tipKey e :=
  rfl

/-- `activeCount` over an append. -/
theorem activeCount_append (l l₂ : List TipEntry) :
    activeCount (l ++ l₂) = activeCount l + activeCount l₂ :=
  List.countP_append _ _ _

/-- `activeCount` over a reversal. -/
theorem activeCount_reverse (l : List TipEntry) : activeCount l.reverse = activeCount l :=
  (l.reverse_perm).countP_eq _

/-- `markNearestActive` preserves the candidate keys. -/
theorem markNearestActive_keys :
    ∀ l l₂ : List TipEntry, markNearestActive l = some l₂ → l₂.map tipKey = l.map tipKey := by
  intro l
  induction l with
  | nil => intro l₂ h; simp [markNearestActive] at h
  | cons e rest ih =>
    intro l₂ h
    rw [markNearestActive] at h
    by_cases hm : e.mode.should_skip
    · rw [if_pos hm] at h
      cases hmk : markNearestActive rest with
      | none => rw [hmk] at h; simp at h
      | some l₃ =>
        rw [hmk] at h
        simp only [Option.map] at h
        injection h with h₂
        rw [← h₂]
        simp [ih l₃ hmk]
    · rw [if_neg hm] at h
      injection h with h₂
      rw [← h₂]
      simp [tipKey]

/-- `markNearestActive` deactivates exactly one active candidate. -/
theorem markNearestActive_active :
    ∀ l l₂ : List TipEntry, markNearestActive l = some l₂ → activeCount l₂ < activeCount l := by
  intro l
  induction l with
  | nil => intro l₂ h; simp [markNearestActive] at h
  | cons e rest ih =>
    intro l₂ h
    rw [markNearestActive] at h
    by_cases hm : e.mode.should_skip
    · rw [if_pos hm] at h
      cases hmk : markNearestActive rest with
      | none => rw [hmk] at h; simp at h
      | some l₃ =>
        rw [hmk] at h
        simp only [Option.map] at h
        injection h with h₂
        rw [← h₂]
        simp only [activeCount, List.countP_cons]
        have := ih l₃ hmk
        simp only [activeCount] at this
        omega
    · rw [if_neg hm] at h
      injection h with h₂
      rw [← h₂]
      have hm2 : e.mode.should_skip = false := by simpa using hm
      simp only [activeCount, List.countP_cons]
      cases hmode : e.mode <;> simp_all [Instruction.should_skip]

/-- The attribution scan preserves the candidate keys. -/
theorem reclassifySkips_keys (hs ht : Nat) :
    ∀ (l : List TipEntry) (saw : Bool) (l₂ : List TipEntry) (b : Bool),
      reclassifySkips hs ht l saw = .ok (l₂, b) → l₂.map tipKey = l.map tipKey := by
  intro l
  induction l with
  | nil =>
    intro saw l₂ b h
    rw [reclassifySkips] at h
    injection h with h₂
    injection h₂ with h₃ h₄
    rw [← h₃]
  | cons e rest ih =>
    intro saw l₂ b h
    rw [reclassifySkips] at h
    cases hm : e.mode with
    | Merge =>
      rw [hm] at h
      cases hr : reclassifySkips hs ht rest saw with
      | error msg => rw [hr] at h; simp [Except.map] at h
      | ok p =>
        rw [hr] at h
        simp only [Except.map] at h
        injection h with h₂
        injection h₂ with h₃ h₄
        rw [← h₃]
        simp [ih saw p.1 p.2 (by rw [hr])]
    | MergeTrial a b₂ => rw [hm] at h; simp at h
    | CertainConflict =>
      rw [hm] at h
      cases hr : reclassifySkips hs ht rest true with
      | error msg => rw [hr] at h; simp [Except.map] at h
      | ok p =>
        rw [hr] at h
        simp only [Except.map] at h
        injection h with h₂
        injection h₂ with h₃ h₄
        rw [← h₃]
        simp [ih _ _ _ hr]
    | Skip =>
      rw [hm] at h
      by_cases hsaw : saw
      · rw [if_pos hsaw] at h
        cases hr : reclassifySkips hs ht rest saw with
        | error msg => rw [hr] at h; simp [Except.map] at h
        | ok p =>
          rw [hr] at h
          simp only [Except.map] at h
          injection h with h₂
          injection h₂ with h₃ h₄
          rw [← h₃]
          simp [tipKey, ih _ _ _ hr]
      · rw [if_neg hsaw] at h
        cases hr : reclassifySkips hs ht rest true with
        | error msg => rw [hr] at h; simp [Except.map] at h
        | ok p =>
          rw [hr] at h
          simp only [Except.map] at h
          injection h with h₂
          injection h₂ with h₃ h₄
          rw [← h₃]
          simp [tipKey, ih _ _ _ hr]

/-- When the attribution scan creates no trials it also preserves the number
of active candidates (it only turns `Skip`s into `CertainConflict`s). -/
theorem reclassifySkips_active_of_false (hs ht : Nat) :
    ∀ (l : List TipEntry) (saw : Bool) (l₂ : List TipEntry),
      reclassifySkips hs ht l saw = .ok (l₂, false) → activeCount l₂ = activeCount l := by
  intro l
  induction l with
  | nil =>
    intro saw l₂ h
    rw [reclassifySkips] at h
    injection h with h₂
    injection h₂ with h₃ h₄
    rw [← h₃]
  | cons e rest ih =>
    intro saw l₂ h
    rw [reclassifySkips] at h
    cases hm : e.mode with
    | Merge =>
      rw [hm] at h
      cases hr : reclassifySkips hs ht rest saw with
      | error msg => rw [hr] at h; simp [Except.map] at h
      | ok p =>
        rw [hr] at h
        simp only [Except.map] at h
        injection h with h₂
        injection h₂ with h₃ h₄
        rw [← h₃]
        have hp : reclassifySkips hs ht rest saw = .ok (p.1, false) := by
          rw [hr, ← h₄]
        simp only [activeCount, List.countP_cons]
        have := ih saw p.1 hp
        simp only [activeCount] at this
        rw [this, hm]
    | MergeTrial a b₂ => rw [hm] at h; simp at h
    | CertainConflict =>
      rw [hm] at h
      cases hr : reclassifySkips hs ht rest true with
      | error msg => rw [hr] at h; simp [Except.map] at h
      | ok p =>
        rw [hr] at h
        simp only [Except.map] at h
        injection h with h₂
        injection h₂ with h₃ h₄
        rw [← h₃]
        have hp : reclassifySkips hs ht rest true = .ok (p.1, false) := by
          rw [hr, ← h₄]
        simp only [activeCount, List.countP_cons]
        have := ih true p.1 hp
        simp only [activeCount] at this
        rw [this, hm]
    | Skip =>
      rw [hm] at h
      by_cases hsaw : saw
      · rw [if_pos hsaw] at h
        cases hr : reclassifySkips hs ht rest saw with
        | error msg => rw [hr] at h; simp [Except.map] at h
        | ok p =>
          rw [hr] at h
          simp only [Except.map] at h
          injection h with h₂
          injection h₂ with h₃ h₄
          exact absurd h₄.symm (by simp)
      · rw [if_neg hsaw] at h
        cases hr : reclassifySkips hs ht rest true with
        | error msg => rw [hr] at h; simp [Except.map] at h
        | ok p =>
          rw [hr] at h
          simp only [Except.map] at h
          injection h with h₂
          injection h₂ with h₃ h₄
          rw [← h₃]
          have hp : reclassifySkips hs ht rest true = .ok (p.1, false) := by
            rw [hr, ← h₄]
          simp only [activeCount, List.countP_cons]
          have := ih true p.1 hp
          simp only [activeCount] at this
          rw [this, hm]
          simp [Instruction.should_skip]

/-- Weakening the pass invariant along a key-preserving, activity-nonincreasing
change of the reference input. -/
theorem passInv_mono (input₂ input : List TipEntry)
    (h₁ : input₂.map tipKey = input.map tipKey)
    (h₂ : activeCount input₂ ≤ activeCount input) :
    ∀ o : PassOutcome, passInv input₂ o → passInv input o := by
  intro o
  cases o with
  | finished t a b => intro h; exact h.trans h₁
  | restartHero t =>
    intro h
    exact ⟨h.1.trans h₁, lt_of_lt_of_le h.2 h₂⟩
  | restartTrials t => intro h; exact h.trans h₁
  | fatal msg => intro h; trivial

/-- Moving the zipper head: the reference input is unchanged. -/
theorem zipper_shift (x : TipEntry) (d r : List TipEntry) :
    (x :: d).reverse ++ r = d.reverse ++ x :: r := by
  simp

/-- The pass invariant: one `'tips_loop` pass preserves the candidate keys in
every non-fatal outcome, and a hero-conflict restart strictly decreases the
number of active candidates. -/
theorem runPassAux_inv (env : Env) (hero : Option String) :
    ∀ (todo done : List TipEntry) (pb mt : Option Nat) (pt : Option (Nat × Nat)),
      passInv (done.reverse ++ todo) (runPassAux env hero done todo pb mt pt) := by
  intro todo
  induction todo with
  | nil =>
    intro done pb mt pt
    simp [runPassAux, passInv]
  | cons e rest ih =>
    intro done pb mt pt
    rw [runPassAux]
    by_cases hsk : e.mode.should_skip
    · rw [if_pos hsk]
      exact zipper_shift e done rest ▸ ih (e :: done) pb mt pt
    · rw [if_neg hsk]
      cases hpe : env.peel_to_tree e.commit_id with
      | none => exact trivial
      | some ttree =>
        dsimp only
        cases pt with
        | none =>
          dsimp only
          exact zipper_shift e done rest ▸ ih (e :: done) pb mt (some (ttree, e.sidx))
        | some ptp =>
          obtain ⟨ptree, psidx⟩ := ptp
          dsimp only
          cases hcmb : compute_merge_base env (pb.getD psidx) e.sidx with
          | none => exact trivial
          | some bp =>
            obtain ⟨btree, bsidx⟩ := bp
            dsimp only
            by_cases hconf : (env.merge_trees btree (mt.getD ptree) ttree).2
            · rw [if_pos hconf]
              cases hm : e.mode with
              | MergeTrial hs htr => exact trivial
              | Merge =>
                dsimp only
                by_cases hh : hero = some e.ref_name
                · rw [if_pos hh]
                  cases hmk : markNearestActive done with
                  | none => exact trivial
                  | some done₂ =>
                    dsimp only
                    refine ⟨?_, ?_⟩
                    · simp [List.map_append, List.map_reverse,
                        markNearestActive_keys done done₂ hmk]
                    · rw [activeCount_append, activeCount_append, activeCount_reverse,
                        activeCount_reverse]
                      exact Nat.add_lt_add_right (markNearestActive_active done done₂ hmk) _
                · rw [if_neg hh]
                  refine passInv_mono _ _ ?_ ?_ _
                    (zipper_shift _ done rest ▸
                      ih ({ e with mode := .Skip } :: done) pb mt (some (ptree, psidx)))
                  · simp [tipKey]
                  · rw [activeCount_append, activeCount_append]
                    have hle : activeCount ({ e with mode := .Skip } :: rest) ≤
                        activeCount (e :: rest) := by
                      simp only [activeCount, List.countP_cons]
                      cases hmode : e.mode <;> simp [Instruction.should_skip]
                    omega
              | Skip => exact absurd hm (by intro hc; rw [hc] at hsk; exact hsk rfl)
              | CertainConflict => exact absurd hm (by intro hc; rw [hc] at hsk; exact hsk rfl)
            · rw [if_neg hconf]
              by_cases hh : hero = some e.ref_name
              · rw [if_pos hh]
                cases hrc : reclassifySkips e.sidx ttree done.reverse false with
                | error msg => exact trivial
                | ok p =>
                  obtain ⟨pre₂, has_trials⟩ := p
                  dsimp only
                  cases has_trials with
                  | true =>
                    rw [if_pos rfl]
                    show (pre₂ ++ e :: rest).map tipKey = _
                    have hk := reclassifySkips_keys e.sidx ttree done.reverse false pre₂ true hrc
                    simp [hk]
                  | false =>
                    rw [if_neg Bool.false_ne_true]
                    have hzip : (e :: pre₂.reverse).reverse ++ rest = pre₂ ++ e :: rest := by
                      simp
                    refine passInv_mono _ _ ?_ ?_ _
                      (hzip ▸ ih (e :: pre₂.reverse) (some bsidx)
                        (some (env.merge_trees btree (mt.getD ptree) ttree).1)
                        (some (ttree, e.sidx)))
                    · have hk := reclassifySkips_keys e.sidx ttree done.reverse false pre₂ false hrc
                      simp [hk]
                    · have ha := reclassifySkips_active_of_false e.sidx ttree done.reverse
                        false pre₂ hrc
                      rw [activeCount_append, activeCount_append, ha, activeCount_reverse]
              · rw [if_neg hh]
                cases hm : e.mode with
                | MergeTrial hs htr =>
                  dsimp only
                  cases hcmb₂ : compute_merge_base env bsidx hs with
                  | none => exact trivial
                  | some bp₂ =>
                    obtain ⟨btree₂, bsidx₂⟩ := bp₂
                    dsimp only
                    by_cases hconf₂ : (env.merge_trees btree₂
                        (env.merge_trees btree (mt.getD ptree) ttree).1 htr).2
                    · rw [if_pos hconf₂]
                      refine passInv_mono _ _ ?_ ?_ _
                        (zipper_shift _ done rest ▸
                          ih ({ e with mode := .CertainConflict } :: done) pb mt
                            (some (ptree, psidx)))
                      · simp [tipKey]
                      · rw [activeCount_append, activeCount_append]
                        have hle : activeCount ({ e with mode := .CertainConflict } :: rest) ≤
                            activeCount (e :: rest) := by
                          simp only [activeCount, List.countP_cons]
                          cases hmode : e.mode <;> simp [Instruction.should_skip]
                        omega
                    · rw [if_neg hconf₂]
                      refine passInv_mono _ _ ?_ ?_ _
                        (zipper_shift _ done rest ▸
                          ih ({ e with mode := .Merge } :: done) (some bsidx)
                            (some (env.merge_trees btree (mt.getD ptree) ttree).1)
                            (some (ttree, e.sidx)))
                      · simp [tipKey]
                      · rw [activeCount_append, activeCount_append]
                        have hle : activeCount ({ e with mode := .Merge } :: rest) ≤
                            activeCount (e :: rest) := by
                          simp only [activeCount, List.countP_cons]
                          simp [Instruction.should_skip, hm]
                        omega
                | Merge =>
                  dsimp only
                  exact zipper_shift e done rest ▸
                    ih (e :: done) (some bsidx)
                      (some (env.merge_trees btree (mt.getD ptree) ttree).1)
                      (some (ttree, e.sidx))
                | Skip => exact absurd hm (by intro hc; rw [hc] at hsk; exact hsk rfl)
                | CertainConflict => exact absurd hm (by intro hc; rw [hc] at hsk; exact hsk rfl)

/-- The pass invariant for a full pass from the start of the tips. -/
theorem runPass_inv (env : Env) (hero : Option String) (tips : List TipEntry) :
    passInv tips (runPass env hero tips) := by
  have h := runPassAux_inv env hero tips [] none none none
  simpa [runPass] using h

/-- A successful retry loop preserves the candidate keys of its input tips. -/
theorem retryLoop_ok_keys (env : Env) (hero : Option String) :
    ∀ (fuel : Nat) (flag : Bool) (tips tipsF : List TipEntry) (mtid : Option Nat)
      (ptid : Option (Nat × Nat)),
      retryLoop env hero fuel flag tips = .ok (tipsF, mtid, ptid) →
      tipsF.map tipKey = tips.map tipKey := by
  intro fuel
  induction fuel with
  | zero =>
    intro flag tips tipsF mtid ptid h
    rw [retryLoop] at h
    exact absurd h (by simp)
  | succ fuel ih =>
    intro flag tips tipsF mtid ptid h
    rw [retryLoop] at h
    have hinv := runPass_inv env hero tips
    cases hrp : runPass env hero tips with
    | fatal msg => rw [hrp] at h; exact absurd h (by simp)
    | restartHero t₂ =>
      rw [hrp] at h
      dsimp only at h
      rw [hrp] at hinv
      exact (ih flag t₂ tipsF mtid ptid h).trans hinv.1
    | restartTrials t₂ =>
      rw [hrp] at h
      dsimp only at h
      rw [hrp] at hinv
      cases flag with
      | true => rw [if_pos rfl] at h; exact absurd h (by simp)
      | false =>
        rw [if_neg Bool.false_ne_true] at h
        exact (ih true t₂ tipsF mtid ptid h).trans hinv
    | finished t₂ m₂ p₂ =>
      rw [hrp] at h
      dsimp only at h
      rw [hrp] at hinv
      injection h with h₂
      injection h₂ with h₃ h₄
      injection h₄ with h₅ h₆
      rw [← h₃]
      exact hinv

/-- The fuel bound of the retry loop: with `activeCount + 1` fuel after the
trials pass started, and `activeCount + length + 3` before, the loop never
runs out of fuel. Hero restarts strictly decrease the active count and the
trials restart happens at most once, so the recursion bottoms out. -/
theorem retryLoop_not_outOfFuel (env : Env) (hero : Option String) :
    ∀ (fuel : Nat) (flag : Bool) (tips : List TipEntry),
      (if flag then activeCount tips + 1 else activeCount tips + tips.length + 3) ≤ fuel →
      retryLoop env hero fuel flag tips ≠ .error .outOfFuel := by
  intro fuel
  induction fuel with
  | zero =>
    intro flag tips hb
    cases flag <;> simp at hb
  | succ fuel ih =>
    intro flag tips hb
    rw [retryLoop]
    have hinv := runPass_inv env hero tips
    cases hrp : runPass env hero tips with
    | fatal msg => simp
    | finished t₂ m₂ p₂ => simp
    | restartHero t₂ =>
      rw [hrp] at hinv
      obtain ⟨hk, hlt⟩ := hinv
      have hlen : t₂.length = tips.length := by
        have := congrArg List.length hk
        simpa using this
      dsimp only
      apply ih
      cases flag with
      | true =>
        rw [if_pos rfl]
        rw [if_pos rfl] at hb
        omega
      | false =>
        rw [if_neg Bool.false_ne_true]
        rw [if_neg Bool.false_ne_true] at hb
        rw [hlen]
        omega
    | restartTrials t₂ =>
      rw [hrp] at hinv
      have hlen : t₂.length = tips.length := by
        have := congrArg List.length hinv
        simpa using this
      dsimp only
      cases flag with
      | true => rw [if_pos rfl]; simp
      | false =>
        rw [if_neg Bool.false_ne_true]
        rw [if_neg Bool.false_ne_true] at hb
        apply ih
        rw [if_pos rfl]
        have hac : activeCount t₂ ≤ t₂.length := List.countP_le_length _
        omega

/-- The engine never exhausts the fuel `2 * tips.length + 3` supplied by
`from_new_merge_core`: the call never reports `outOfFuel`. -/
theorem core_not_outOfFuel (env : Env) (stackList : List WorkspaceStack)
    (hero : Option String) :
    from_new_merge_core env stackList hero ≠ .error .outOfFuel := by
  unfold from_new_merge_core
  cases hp : preprocess env.resolve stackList with
  | error e =>
    intro hc
    injection hc with h₂
    exact absurd (h₂ ▸ hp) (by
      intro hpp
      have := preprocess_error_eq env.resolve stackList _ hpp
      simp at this)
  | ok p =>
    obtain ⟨m, tips⟩ := p
    dsimp only
    cases hr : retryLoop env hero (2 * tips.length + 3) false tips with
    | error e =>
      intro hc
      injection hc with h₂
      apply retryLoop_not_outOfFuel env hero (2 * tips.length + 3) false tips
      · rw [if_neg Bool.false_ne_true]
        have hac : activeCount tips ≤ tips.length := List.countP_le_length _
        omega
      · rw [hr, h₂]
    | ok q =>
      obtain ⟨tipsF, mtid, ptid⟩ := q
      dsimp only
      by_cases he : (classify tipsF).1.isEmpty
      · rw [if_pos he]; simp
      · rw [if_neg he]
        cases mtid with
        | some mt => simp
        | none =>
          cases ptid with
          | some pt => simp
          | none => simp

/-- The backward search: with every entry before `a` skipped and `a` active,
exactly `a` is marked `Skip`. -/
theorem markNearestActive_spec (d₁ d₂ : List TipEntry) (a : TipEntry)
    (hd₁ : ∀ x ∈ d₁, x.mode.should_skip) (ha : ¬a.mode.should_skip) :
    markNearestActive (d₁ ++ a :: d₂) = some (d₁ ++ { a with mode := .Skip } :: d₂) := by
  induction d₁ with
  | nil =>
    rw [List.nil_append, markNearestActive, if_neg ha, List.nil_append]
  | cons x d₁ ih =>
    rw [List.cons_append, markNearestActive, if_pos (hd₁ x (by simp)),
      ih (fun y hy => hd₁ y (by simp [hy]))]
    rfl

/-! ## C4 (corrected) -/

/-- Counterexample to C4 as stated: in the `envC4` run the very first pass
ends with a hero conflict that marks `refs/heads/g2` as `Skip` (a hero-triggered
restart), yet the final outcome of the same run has `g2` among the merged
`Outcome.stacks` — the attribution pass reinstated it. So a hero-triggered
restart does not "permanently remove" the marked candidate from contention. -/
theorem c4_counterexample :
    runPass envC4 (some "refs/heads/h") tipsC4 =
      .restartHero [⟨.Merge, "refs/heads/g1", 1, 10⟩, ⟨.Merge, "refs/heads/c", 2, 11⟩,
        ⟨.Skip, "refs/heads/g2", 3, 12⟩, ⟨.Merge, "refs/heads/h", 4, 13⟩] ∧
    from_new_merge_with_metadata envC4 stacksC4 (some "refs/heads/h") =
      .ok ⟨7, [⟨1, some "g1"⟩, ⟨3, some "g2"⟩, ⟨4, some "h"⟩], [], [⟨2, "refs/heads/c"⟩]⟩ ∧
    some "g2" ∈
      (Outcome.mk 7 [⟨1, some "g1"⟩, ⟨3, some "g2"⟩, ⟨4, some "h"⟩] []
        [⟨2, "refs/heads/c"⟩]).stacks.map Stack.name := by
  decide

/-- C4 (amended): when the hero's merge conflicts, the engine marks the
nearest preceding non-skipped candidate as `Skip` and restarts the whole pass
(first conjunct, at the point where the hero `e` is reached with the processed
prefix split as `d₁ ++ a :: d₂` in reverse order, `d₁` all skipped and `a`
active). Such a candidate is not permanently removed — the attribution pass
may reinstate it (see the counterexample) — but every hero restart strictly
decreases the active-candidate count, and the engine always terminates: the
fuel `2·n + 3` supplied by `from_new_merge_core` is never exhausted (second
conjunct). -/
theorem c4_hero_restart_and_termination :
    (∀ (env : Env) (hero_name : String) (d₁ d₂ rest : List TipEntry) (a e : TipEntry)
        (pb mt : Option Nat) (ptree psidx ttree btree bsidx : Nat),
        (∀ x ∈ d₁, x.mode.should_skip) → ¬a.mode.should_skip →
        e.mode = .Merge → hero_name = e.ref_name →
        env.peel_to_tree e.commit_id = some ttree →
        compute_merge_base env (pb.getD psidx) e.sidx = some (btree, bsidx) →
        (env.merge_trees btree (mt.getD ptree) ttree).2 = true →
        runPassAux env (some hero_name) (d₁ ++ a :: d₂) (e :: rest) pb mt
            (some (ptree, psidx)) =
          .restartHero ((d₁ ++ { a with mode := .Skip } :: d₂).reverse ++ e :: rest)) ∧
    (∀ (env : Env) (stackList : List WorkspaceStack) (hero : Option String),
        from_new_merge_with_metadata env stackList hero ≠ .error .outOfFuel) := by
  constructor
  · intro env hero_name d₁ d₂ rest a e pb mt ptree psidx ttree btree bsidx hd₁ ha hm hh hpe
      hcmb hconf
    rw [runPassAux]
    rw [if_neg (by rw [hm]; simp [Instruction.should_skip])]
    rw [hpe]
    dsimp only
    rw [hcmb]
    dsimp only
    rw [if_pos hconf]
    rw [hm]
    dsimp only
    rw [if_pos (by rw [hh])]
    rw [markNearestActive_spec d₁ d₂ a hd₁ ha]
  · intro env sl hero hc
    rw [with_metadata_error_iff] at hc
    exact core_not_outOfFuel env sl hero hc

/-- Witness for C4: the hero-conflict restart step at the concrete state the
first `envC4` pass reaches, and fuel-soundness of the concrete run. -/
theorem c4_witness :
    runPassAux envC4 (some "refs/heads/h")
        ([] ++ ⟨.Merge, "refs/heads/g2", 3, 12⟩ ::
          [⟨.Merge, "refs/heads/c", 2, 11⟩, ⟨.Merge, "refs/heads/g1", 1, 10⟩])
        ([⟨.Merge, "refs/heads/h", 4, 13⟩] : List TipEntry)
        (some 9) (some 32) (some (23, 12)) =
      .restartHero
        (([] ++ { (⟨.Merge, "refs/heads/g2", 3, 12⟩ : TipEntry) with mode := .Skip } ::
            [⟨.Merge, "refs/heads/c", 2, 11⟩, ⟨.Merge, "refs/heads/g1", 1, 10⟩]).reverse ++
          (⟨.Merge, "refs/heads/h", 4, 13⟩ : TipEntry) :: []) ∧
    from_new_merge_with_metadata envC4 stacksC4 (some "refs/heads/h") ≠
      .error .outOfFuel :=
  ⟨c4_hero_restart_and_termination.1 envC4 "refs/heads/h"
      [] [⟨.Merge, "refs/heads/c", 2, 11⟩, ⟨.Merge, "refs/heads/g1", 1, 10⟩] []
      ⟨.Merge, "refs/heads/g2", 3, 12⟩ ⟨.Merge, "refs/heads/h", 4, 13⟩
      (some 9) (some 32) 23 12 24 20 9
      (by simp) (by decide) rfl rfl (by decide) (by decide) (by decide),
    c4_hero_restart_and_termination.2 envC4 stacksC4 (some "refs/heads/h")⟩

/-! ## C5 -/

/-- C5: once the merge-trials pass has run (`ran_merge_trials` set), a second
trials restart aborts the run with the fatal safety error instead of running
another pass; and along any run, the number of trials passes entered is at
most one (zero once the flag is set). -/
theorem c5_one_attribution_pass :
    (∀ (env : Env) (hero : Option String) (fuel : Nat) (tips tips₂ : List TipEntry),
        runPass env hero tips = .restartTrials tips₂ →
        retryLoop env hero (fuel + 1) true tips = .error (.fatal merge_trials_twice_msg)) ∧
    (∀ (env : Env) (hero : Option String) (fuel : Nat) (flag : Bool) (tips : List TipEntry),
        countTrials env hero fuel flag tips ≤ if flag then 0 else 1) := by
  constructor
  · intro env hero fuel tips tips₂ h
    rw [retryLoop, h]
    dsimp only
    rw [if_pos rfl]
  · intro env hero fuel
    induction fuel with
    | zero =>
      intro flag tips
      rw [countTrials]
      cases flag <;> simp
    | succ fuel ih =>
      intro flag tips
      rw [countTrials]
      cases hrp : runPass env hero tips with
      | fatal msg => dsimp only; cases flag <;> simp
      | finished a b c => dsimp only; cases flag <;> simp
      | restartHero t₂ =>
        dsimp only
        exact ih flag t₂
      | restartTrials t₂ =>
        dsimp only
        cases flag with
        | true => rw [if_pos rfl]; simp
        | false =>
          rw [if_neg Bool.false_ne_true, if_neg Bool.false_ne_true]
          have h₂ := ih true t₂
          rw [if_pos rfl] at h₂
          omega

/-- Witness for C5: with the flag set, a state whose pass triggers trials
makes the loop abort fatally; and the trial count of the concrete fresh run is
at most one. -/
theorem c5_witness :
    retryLoop envT (some "refs/heads/h") 8 true tipsT =
      .error (.fatal merge_trials_twice_msg) ∧
    countTrials envT (some "refs/heads/h") 7 false tipsT ≤ if false then 0 else 1 :=
  ⟨c5_one_attribution_pass.1 envT (some "refs/heads/h") 7 tipsT
      [⟨.Merge, "refs/heads/a", 1, 10⟩, ⟨.CertainConflict, "refs/heads/x", 2, 11⟩,
        ⟨.MergeTrial 13 24, "refs/heads/y", 3, 12⟩, ⟨.Merge, "refs/heads/h", 4, 13⟩]
      (by decide),
    c5_one_attribution_pass.2 envT (some "refs/heads/h") 7 false tipsT⟩

/-! ## C3: the attribution scan and the merge-trial step -/

/-- The attribution scan passes over a prefix of `Merge` entries unchanged. -/
theorem reclassifySkips_merge_pre (hs ht : Nat) :
    ∀ (l₁ l₂ : List TipEntry) (saw : Bool), (∀ x ∈ l₁, x.mode = .Merge) →
      reclassifySkips hs ht (l₁ ++ l₂) saw =
        (reclassifySkips hs ht l₂ saw).map (fun p => (l₁ ++ p.1, p.2)) := by
  intro l₁
  induction l₁ with
  | nil =>
    intro l₂ saw _
    cases h : reclassifySkips hs ht l₂ saw with
    | error msg => simp [Except.map, h]
    | ok p => simp [Except.map, h]
  | cons x l₁ ih =>
    intro l₂ saw hx
    rw [List.cons_append, reclassifySkips, hx x (by simp)]
    rw [ih l₂ saw (fun y hy => hx y (by simp [hy]))]
    cases h : reclassifySkips hs ht l₂ saw with
    | error msg => simp [Except.map, h]
    | ok p => simp [Except.map, h]

/-- Once a certain conflict has been seen, the scan turns every later `Skip`
into a `MergeTrial` carrying the hero data, leaves `Merge` entries alone, and
reports a trial exactly when some `Skip` was present. -/
theorem reclassifySkips_saw_true (hs ht : Nat) :
    ∀ l : List TipEntry, (∀ x ∈ l, x.mode = .Merge ∨ x.mode = .Skip) →
      reclassifySkips hs ht l true =
        .ok (l.map (fun x => if x.mode = .Skip then { x with mode := .MergeTrial hs ht } else x),
          l.any (fun x => decide (x.mode = .Skip))) := by
  intro l
  induction l with
  | nil => intro _; simp [reclassifySkips]
  | cons x l ih =>
    intro hx
    rcases hx x (by simp) with hm | hm
    · rw [reclassifySkips, hm, ih (fun y hy => hx y (by simp [hy]))]
      simp [Except.map, hm]
    · rw [reclassifySkips, hm]
      rw [if_pos rfl]
      rw [ih (fun y hy => hx y (by simp [hy]))]
      simp [Except.map, hm]

/-- Mapping the skip-to-trial reclassification over entries that are all
`Merge` changes nothing. -/
theorem map_mark_trial_of_merge (hs ht : Nat) (l : List TipEntry)
    (h : ∀ x ∈ l, x.mode = .Merge) :
    l.map (fun x => if x.mode = .Skip then { x with mode := .MergeTrial hs ht } else x) = l := by
  induction l with
  | nil => rfl
  | cons x l ih =>
    rw [List.map_cons, if_neg (by rw [h x (by simp)]; simp),
      ih (fun y hy => h y (by simp [hy]))]

/-- Counterexample to C3 as stated: the spec's own Scenario A. Under `envSA`
(stacks `[x, y, z]`, hero `z`, `y` conflicting with `x`), the hero merges
cleanly with exactly one preceding candidate marked `Skip`, yet the pass ends
in `finished` — the single skip becomes `CertainConflict` and no restart for
another full pass occurs; the whole run succeeds within this one pass. -/
theorem c3_counterexample :
    runPass envSA (some "refs/heads/z") tipsSA =
      .finished
        [⟨.Merge, "refs/heads/x", 1, 10⟩, ⟨.CertainConflict, "refs/heads/y", 2, 11⟩,
          ⟨.Merge, "refs/heads/z", 3, 12⟩] (some 31) (some (23, 12)) ∧
    runPassAux envSA (some "refs/heads/z")
        [⟨.Skip, "refs/heads/y", 2, 11⟩, ⟨.Merge, "refs/heads/x", 1, 10⟩]
        [⟨.Merge, "refs/heads/z", 3, 12⟩] none none (some (21, 10)) =
      .finished
        [⟨.Merge, "refs/heads/x", 1, 10⟩, ⟨.CertainConflict, "refs/heads/y", 2, 11⟩,
          ⟨.Merge, "refs/heads/z", 3, 12⟩] (some 31) (some (23, 12)) ∧
    from_new_merge_with_metadata envSA stacksSA (some "refs/heads/z") =
      .ok ⟨7, [⟨1, some "x"⟩, ⟨3, some "z"⟩], [], [⟨2, "refs/heads/y"⟩]⟩ := by
  decide

/-- C3 (amended). (First conjunct) when the hero `e` merges cleanly and the
processed prefix, in input order, is `p₁ ++ s₁ :: p₂ ++ s₂ :: p₃` with `p₁`
all `Merge`, `s₁`/`s₂` skipped, and the rest `Merge` or `Skip` — i.e. at
least one further candidate besides the first is skipped — the pass
reclassifies the first skipped candidate `s₁` as `CertainConflict`, every
later `Skip` as `MergeTrial` carrying the hero's graph position and tree, and
returns the merge-trials restart. (Second conjunct) in the restarted pass, a
`MergeTrial` candidate that merges cleanly is immediately test-merged against
the hero's tree over the base of the candidate and the hero's position: a
conflicting test makes it `CertainConflict` and leaves the running-merge
state untouched (its tree does not contribute); a clean test makes it `Merge`
and adopts its merge as the running tree. (Third conjunct) when the first
skipped candidate is the only skip in the prefix, it is reclassified
`CertainConflict` and the pass simply continues with the hero's merge adopted
— no restart is triggered (see the counterexample). -/
theorem c3_attribution :
    (∀ (env : Env) (hero_name : String) (rest p₁ p₂ p₃ : List TipEntry) (s₁ s₂ e : TipEntry)
        (pb mt : Option Nat) (ptree psidx ttree btree bsidx merged : Nat),
        e.mode = .Merge → hero_name = e.ref_name →
        env.peel_to_tree e.commit_id = some ttree →
        compute_merge_base env (pb.getD psidx) e.sidx = some (btree, bsidx) →
        env.merge_trees btree (mt.getD ptree) ttree = (merged, false) →
        (∀ x ∈ p₁, x.mode = .Merge) → s₁.mode = .Skip → s₂.mode = .Skip →
        (∀ x ∈ p₂ ++ s₂ :: p₃, x.mode = .Merge ∨ x.mode = .Skip) →
        runPassAux env (some hero_name) (p₁ ++ s₁ :: (p₂ ++ s₂ :: p₃)).reverse (e :: rest)
            pb mt (some (ptree, psidx)) =
          .restartTrials
            ((p₁ ++ { s₁ with mode := .CertainConflict } ::
                (p₂ ++ s₂ :: p₃).map (fun x =>
                  if x.mode = .Skip then { x with mode := .MergeTrial e.sidx ttree } else x))
              ++ e :: rest)) ∧
    (∀ (env : Env) (hero : Option String) (done rest : List TipEntry) (e : TipEntry)
        (hs htr : Nat) (pb mt : Option Nat)
        (ptree psidx ttree btree bsidx merged btree₂ bsidx₂ : Nat),
        e.mode = .MergeTrial hs htr → hero ≠ some e.ref_name →
        env.peel_to_tree e.commit_id = some ttree →
        compute_merge_base env (pb.getD psidx) e.sidx = some (btree, bsidx) →
        env.merge_trees btree (mt.getD ptree) ttree = (merged, false) →
        compute_merge_base env bsidx hs = some (btree₂, bsidx₂) →
        runPassAux env hero done (e :: rest) pb mt (some (ptree, psidx)) =
          if (env.merge_trees btree₂ merged htr).2 then
            runPassAux env hero ({ e with mode := .CertainConflict } :: done) rest pb mt
              (some (ptree, psidx))
          else
            runPassAux env hero ({ e with mode := .Merge } :: done) rest (some bsidx)
              (some merged) (some (ttree, e.sidx))) ∧
    (∀ (env : Env) (hero_name : String) (rest p₁ p₂ : List TipEntry) (s₁ e : TipEntry)
        (pb mt : Option Nat) (ptree psidx ttree btree bsidx merged : Nat),
        e.mode = .Merge → hero_name = e.ref_name →
        env.peel_to_tree e.commit_id = some ttree →
        compute_merge_base env (pb.getD psidx) e.sidx = some (btree, bsidx) →
        env.merge_trees btree (mt.getD ptree) ttree = (merged, false) →
        (∀ x ∈ p₁, x.mode = .Merge) → s₁.mode = .Skip →
        (∀ x ∈ p₂, x.mode = .Merge) →
        runPassAux env (some hero_name) (p₁ ++ s₁ :: p₂).reverse (e :: rest) pb mt
            (some (ptree, psidx)) =
          runPassAux env (some hero_name)
            (e :: (p₁ ++ { s₁ with mode := .CertainConflict } :: p₂).reverse) rest
            (some bsidx) (some merged) (some (ttree, e.sidx))) := by
  refine ⟨?_, ?_, ?_⟩
  · intro env hero_name rest p₁ p₂ p₃ s₁ s₂ e pb mt ptree psidx ttree btree bsidx merged
      hm hh hpe hcmb hmerge hp₁ hs₁ hs₂ hp₂₃
    rw [runPassAux]
    rw [if_neg (by rw [hm]; simp [Instruction.should_skip])]
    rw [hpe]
    dsimp only
    rw [hcmb]
    dsimp only
    rw [hmerge]
    rw [if_neg (by simp)]
    rw [if_pos (by rw [hh])]
    rw [List.reverse_reverse]
    rw [reclassifySkips_merge_pre e.sidx ttree p₁ (s₁ :: (p₂ ++ s₂ :: p₃)) false hp₁]
    rw [reclassifySkips, hs₁]
    rw [if_neg (by simp)]
    rw [reclassifySkips_saw_true e.sidx ttree (p₂ ++ s₂ :: p₃) hp₂₃]
    have hany : ((p₂ ++ s₂ :: p₃).any fun x => decide (x.mode = .Skip)) = true := by
      rw [List.any_eq_true]
      exact ⟨s₂, by simp, by simp [hs₂]⟩
    rw [hany]
    dsimp only [Except.map]
    rw [if_pos rfl]
  · intro env hero done rest e hs htr pb mt ptree psidx ttree btree bsidx merged btree₂ bsidx₂
      hm hh hpe hcmb hmerge hcmb₂
    rw [runPassAux]
    rw [if_neg (by rw [hm]; simp [Instruction.should_skip])]
    rw [hpe]
    dsimp only
    rw [hcmb]
    dsimp only
    rw [hmerge]
    rw [if_neg (by simp)]
    rw [if_neg hh]
    rw [hm]
    dsimp only
    rw [hcmb₂]
  · intro env hero_name rest p₁ p₂ s₁ e pb mt ptree psidx ttree btree bsidx merged
      hm hh hpe hcmb hmerge hp₁ hs₁ hp₂
    rw [runPassAux]
    rw [if_neg (by rw [hm]; simp [Instruction.should_skip])]
    rw [hpe]
    dsimp only
    rw [hcmb]
    dsimp only
    rw [hmerge]
    rw [if_neg (by simp)]
    rw [if_pos (by rw [hh])]
    rw [List.reverse_reverse]
    rw [reclassifySkips_merge_pre e.sidx ttree p₁ (s₁ :: p₂) false hp₁]
    rw [reclassifySkips, hs₁]
    rw [if_neg (by simp)]
    rw [reclassifySkips_saw_true e.sidx ttree p₂ (fun x hx => Or.inl (hp₂ x hx))]
    rw [map_mark_trial_of_merge e.sidx ttree p₂ hp₂]
    have hany : (p₂.any fun x => decide (x.mode = .Skip)) = false := by
      rw [List.any_eq_false]
      intro x hx
      simp [hp₂ x hx]
    rw [hany]
    dsimp only [Except.map]
    rw [if_neg Bool.false_ne_true]

/-- Witness for C3: the concrete trigger state of the third `envC4` pass
(first conjunct), the concrete merge-trial step of its fourth pass (second
conjunct, whose hero test-merge is clean, so the candidate is reclassified
`Merge` and its merge adopted as the running tree), and the single-skip
hero step of the `envSA` Scenario-A pass, which continues without a restart
(third conjunct). -/
theorem c3_witness :
    runPassAux envC4 (some "refs/heads/h")
        [⟨.Skip, "refs/heads/g2", 3, 12⟩, ⟨.Skip, "refs/heads/c", 2, 11⟩,
          ⟨.Merge, "refs/heads/g1", 1, 10⟩]
        [⟨.Merge, "refs/heads/h", 4, 13⟩] none none (some (21, 10)) =
      .restartTrials
        [⟨.Merge, "refs/heads/g1", 1, 10⟩, ⟨.CertainConflict, "refs/heads/c", 2, 11⟩,
          ⟨.MergeTrial 13 24, "refs/heads/g2", 3, 12⟩, ⟨.Merge, "refs/heads/h", 4, 13⟩] ∧
    runPassAux envC4 (some "refs/heads/h")
        [⟨.CertainConflict, "refs/heads/c", 2, 11⟩, ⟨.Merge, "refs/heads/g1", 1, 10⟩]
        [⟨.MergeTrial 13 24, "refs/heads/g2", 3, 12⟩, ⟨.Merge, "refs/heads/h", 4, 13⟩]
        none none (some (21, 10)) =
      runPassAux envC4 (some "refs/heads/h")
        [⟨.Merge, "refs/heads/g2", 3, 12⟩, ⟨.CertainConflict, "refs/heads/c", 2, 11⟩,
          ⟨.Merge, "refs/heads/g1", 1, 10⟩]
        [⟨.Merge, "refs/heads/h", 4, 13⟩] (some 9) (some 40) (some (23, 12)) ∧
    runPassAux envSA (some "refs/heads/z")
        [⟨.Skip, "refs/heads/y", 2, 11⟩, ⟨.Merge, "refs/heads/x", 1, 10⟩]
        [⟨.Merge, "refs/heads/z", 3, 12⟩] none none (some (21, 10)) =
      runPassAux envSA (some "refs/heads/z")
        [⟨.Merge, "refs/heads/z", 3, 12⟩, ⟨.CertainConflict, "refs/heads/y", 2, 11⟩,
          ⟨.Merge, "refs/heads/x", 1, 10⟩] [] (some 9) (some 31) (some (23, 12)) :=
  ⟨c3_attribution.1 envC4 "refs/heads/h" [] [⟨.Merge, "refs/heads/g1", 1, 10⟩] [] []
      ⟨.Skip, "refs/heads/c", 2, 11⟩ ⟨.Skip, "refs/heads/g2", 3, 12⟩
      ⟨.Merge, "refs/heads/h", 4, 13⟩ none none 21 10 24 20 9 33
      rfl rfl (by decide) (by decide) (by decide) (by decide) rfl rfl (by decide),
    c3_attribution.2.1 envC4 (some "refs/heads/h")
      [⟨.CertainConflict, "refs/heads/c", 2, 11⟩, ⟨.Merge, "refs/heads/g1", 1, 10⟩]
      [⟨.Merge, "refs/heads/h", 4, 13⟩] ⟨.MergeTrial 13 24, "refs/heads/g2", 3, 12⟩
      13 24 none none 21 10 23 20 9 40 20 9
      rfl (by decide) (by decide) (by decide) (by decide) (by decide),
    c3_attribution.2.2 envSA "refs/heads/z" [] [⟨.Merge, "refs/heads/x", 1, 10⟩] []
      ⟨.Skip, "refs/heads/y", 2, 11⟩ ⟨.Merge, "refs/heads/z", 3, 12⟩
      none none 21 10 23 20 9 31
      rfl rfl (by decide) (by decide) (by decide) (by decide) rfl (by decide)⟩

/-- Time fixup never touches the tree. -/
theorem fixup_times_tree (c : Commit) (env : Env) : (fixup_times c env).tree = c.tree := by
  unfold fixup_times
  cases env.committer_time <;> rfl

/-- C6: when preprocessing leaves exactly one candidate, the run is
independent of the tree-merge primitive (it is never invoked), and the
workspace commit's tree is that candidate's own tip tree, unchanged. -/
theorem c6_single_stack (env : Env) (stackList : List WorkspaceStack) (hero : Option String)
    (m : List String) (e : TipEntry) (t : Nat)
    (hpre : preprocess env.resolve stackList = .ok (m, [e]))
    (hpeel : env.peel_to_tree e.commit_id = some t) :
    (∀ mtf : Nat → Nat → Nat → Nat × Bool,
        from_new_merge_core { env with merge_trees := mtf } stackList hero =
          from_new_merge_core env stackList hero) ∧
    ∃ c : CoreOut, from_new_merge_core env stackList hero = .ok c ∧ c.commit.tree = t ∧
      c.stacks = [{ tip := e.commit_id, name := some (shorten e.ref_name) }] ∧
      c.conflicting_stacks = [] := by
  have hmode : e.mode = .Merge :=
    ((preprocess_ok_facts env.resolve stackList m [e] hpre).2.1 e (by simp)).2
  have hcomp : ∀ mtf : Nat → Nat → Nat → Nat × Bool,
      from_new_merge_core { env with merge_trees := mtf } stackList hero =
        .ok { commit := fixup_times
                { new_from_stacks [{ tip := e.commit_id, name := some (shorten e.ref_name) }]
                    env.object_hash env.time_env with tree := t } env
              «stacks» := [{ tip := e.commit_id, name := some (shorten e.ref_name) }]
              missing_stacks := m
              conflicting_stacks := [] } := by
    intro mtf
    have hpass : runPass { env with merge_trees := mtf } hero [e] =
        .finished [e] none (some (t, e.sidx)) := by
      unfold runPass
      rw [runPassAux]
      rw [if_neg (by rw [hmode]; simp [Instruction.should_skip])]
      dsimp only
      rw [hpeel]
      dsimp only
      rw [runPassAux]
      simp
    unfold from_new_merge_core
    dsimp only
    rw [hpre]
    dsimp only
    rw [show 2 * List.length [e] + 3 = 4 + 1 from rfl]
    rw [retryLoop]
    rw [hpass]
    dsimp only
    rw [classify_eq]
    simp [hmode, Instruction.should_skip]
    rfl
  have henv : ({ env with merge_trees := env.merge_trees } : Env) = env := rfl
  have h₀ := hcomp env.merge_trees
  rw [henv] at h₀
  refine ⟨?_, ?_⟩
  · intro mtf
    rw [hcomp mtf, h₀]
  · refine ⟨_, h₀, ?_, rfl, rfl⟩
    rw [fixup_times_tree]

/-- Witness for C6 at the single-stack input of `envA`. -/
theorem c6_witness :
    from_new_merge_core
        { envA with merge_trees := fun _ _ _ => (99, true) }
        [⟨[⟨"refs/heads/a"⟩], .Merged⟩] none =
      from_new_merge_core envA [⟨[⟨"refs/heads/a"⟩], .Merged⟩] none ∧
    ∃ c : CoreOut, from_new_merge_core envA [⟨[⟨"refs/heads/a"⟩], .Merged⟩] none = .ok c ∧
      c.commit.tree = 21 ∧
      c.stacks = [{ tip := 1, name := some (shorten "refs/heads/a") }] ∧
      c.conflicting_stacks = [] :=
  ⟨(c6_single_stack envA [⟨[⟨"refs/heads/a"⟩], .Merged⟩] none []
      ⟨.Merge, "refs/heads/a", 1, 10⟩ 21 (by decide) (by decide)).1 (fun _ _ _ => (99, true)),
    (c6_single_stack envA [⟨[⟨"refs/heads/a"⟩], .Merged⟩] none []
      ⟨.Merge, "refs/heads/a", 1, 10⟩ 21 (by decide) (by decide)).2⟩

/-! ## C7: unresolvable stacks are recorded and otherwise ignored -/

/-- Inserting a `Merged` stack whose name does not resolve leaves the tips of
preprocessing unchanged and only adds the name to the missing list. -/
theorem preprocess_insert_unresolvable (r : String → Option (Nat × Nat)) (u : WorkspaceStack)
    (b : WorkspaceStackBranch) (bs : List WorkspaceStackBranch)
    (hb : u.branches = b :: bs) (hrel : u.workspacecommit_relation = .Merged)
    (hres : r b.ref_name = none) :
    ∀ l₁ l₂ : List WorkspaceStack,
      (∀ err, preprocess r (l₁ ++ l₂) = .error err →
        preprocess r (l₁ ++ u :: l₂) = .error err) ∧
      (∀ m t, preprocess r (l₁ ++ l₂) = .ok (m, t) →
        ∃ m₂, preprocess r (l₁ ++ u :: l₂) = .ok (m₂, t) ∧ m₂.Perm (b.ref_name :: m)) := by
  intro l₁
  induction l₁ with
  | nil =>
    intro l₂
    constructor
    · intro err h
      simp only [List.nil_append] at h ⊢
      rw [preprocess, hb]
      dsimp only [List.head?]
      rw [hrel]
      dsimp only
      rw [hres, h]
      rfl
    · intro m t h
      simp only [List.nil_append] at h ⊢
      rw [preprocess, hb]
      dsimp only [List.head?]
      rw [hrel]
      dsimp only
      rw [hres, h]
      exact ⟨b.ref_name :: m, rfl, List.Perm.refl _⟩
  | cons a l₁ ih =>
    intro l₂
    constructor
    · intro err h
      rcases ha : a.branches.head? with _ | b₂
      · simp only [List.cons_append, List.append_eq, preprocess, ha] at h ⊢
        exact (ih l₂).1 err h
      · rcases hrel₂ : a.workspacecommit_relation with _ | _ | _
        · rcases hres₂ : r b₂.ref_name with _ | ⟨cid, sid⟩
          · simp only [List.cons_append, List.append_eq, preprocess, ha, hrel₂, hres₂] at h ⊢
            cases hp : preprocess r (l₁ ++ l₂) with
            | error e =>
              rw [hp] at h
              simp only [Except.map] at h
              injection h with h₂
              rw [(ih l₂).1 e hp]
              simp [Except.map, h₂]
            | ok p => rw [hp] at h; simp [Except.map] at h
          · simp only [List.cons_append, List.append_eq, preprocess, ha, hrel₂, hres₂] at h ⊢
            cases hp : preprocess r (l₁ ++ l₂) with
            | error e =>
              rw [hp] at h
              simp only [Except.map] at h
              injection h with h₂
              rw [(ih l₂).1 e hp]
              simp [Except.map, h₂]
            | ok p => rw [hp] at h; simp [Except.map] at h
        · simp only [List.cons_append, List.append_eq, preprocess, ha, hrel₂] at h ⊢
          exact h
        · simp only [List.cons_append, List.append_eq, preprocess, ha, hrel₂] at h ⊢
          exact (ih l₂).1 err h
    · intro m t h
      rcases ha : a.branches.head? with _ | b₂
      · simp only [List.cons_append, List.append_eq, preprocess, ha] at h ⊢
        exact (ih l₂).2 m t h
      · rcases hrel₂ : a.workspacecommit_relation with _ | _ | _
        · rcases hres₂ : r b₂.ref_name with _ | ⟨cid, sid⟩
          · simp only [List.cons_append, List.append_eq, preprocess, ha, hrel₂, hres₂] at h ⊢
            cases hp : preprocess r (l₁ ++ l₂) with
            | error e => rw [hp] at h; simp [Except.map] at h
            | ok p =>
              rw [hp] at h
              simp only [Except.map] at h
              injection h with h₂
              injection h₂ with hm ht
              obtain ⟨m₂, hm₂, hperm⟩ := (ih l₂).2 p.1 p.2 (by rw [hp])
              rw [hm₂]
              refine ⟨b₂.ref_name :: m₂, by simp [Except.map, ht], ?_⟩
              rw [← hm]
              exact (hperm.cons b₂.ref_name).trans (List.Perm.swap _ _ _)
          · simp only [List.cons_append, List.append_eq, preprocess, ha, hrel₂, hres₂] at h ⊢
            cases hp : preprocess r (l₁ ++ l₂) with
            | error e => rw [hp] at h; simp [Except.map] at h
            | ok p =>
              rw [hp] at h
              simp only [Except.map] at h
              injection h with h₂
              injection h₂ with hm ht
              obtain ⟨m₂, hm₂, hperm⟩ := (ih l₂).2 p.1 p.2 (by rw [hp])
              rw [hm₂]
              refine ⟨m₂, by simp [Except.map, ht], ?_⟩
              rw [← hm]
              exact hperm
        · simp only [List.cons_append, List.append_eq, preprocess, ha, hrel₂] at h ⊢
          exact absurd h (by simp)
        · simp only [List.cons_append, List.append_eq, preprocess, ha, hrel₂] at h ⊢
          exact (ih l₂).2 m t h

/-- Two inputs whose preprocessing yields the same tips give runs that agree
on everything except the recorded missing names. -/
theorem core_congr_preprocess (env : Env) (sl₁ sl₂ : List WorkspaceStack)
    (hero : Option String) (m₁ m₂ : List String) (tips : List TipEntry)
    (h₁ : preprocess env.resolve sl₁ = .ok (m₁, tips))
    (h₂ : preprocess env.resolve sl₂ = .ok (m₂, tips)) :
    (match from_new_merge_core env sl₁ hero, from_new_merge_core env sl₂ hero with
     | .ok c₁, .ok c₂ =>
       c₁.commit = c₂.commit ∧ c₁.stacks = c₂.stacks ∧
       c₁.conflicting_stacks = c₂.conflicting_stacks ∧
       c₁.missing_stacks = m₁ ∧ c₂.missing_stacks = m₂
     | .error e₁, .error e₂ => e₁ = e₂
     | _, _ => False : Prop) := by
  unfold from_new_merge_core
  rw [h₁, h₂]
  dsimp only
  cases hr : retryLoop env hero (2 * tips.length + 3) false tips with
  | error e => exact rfl
  | ok q =>
    obtain ⟨tipsF, mtid, ptid⟩ := q
    dsimp only
    by_cases he : (classify tipsF).1.isEmpty
    · rw [if_pos he, if_pos he]
    · rw [if_neg he, if_neg he]
      cases mtid with
      | some mt => exact ⟨rfl, rfl, rfl, rfl, rfl⟩
      | none =>
        cases ptid with
        | some pt => exact ⟨rfl, rfl, rfl, rfl, rfl⟩
        | none => exact rfl

/-- C7: a `Merged` stack whose ref name does not resolve is recorded in
`missing_stacks` and nowhere else, the failure is not fatal, and the rest of
the run is exactly the run without that stack: same merged stacks, same
conflicting stacks, same workspace commit. -/
theorem c7_missing_stack (env : Env) (l₁ l₂ : List WorkspaceStack) (u : WorkspaceStack)
    (b : WorkspaceStackBranch) (bs : List WorkspaceStackBranch) (hero : Option String)
    (hb : u.branches = b :: bs) (hrel : u.workspacecommit_relation = .Merged)
    (hres : env.resolve b.ref_name = none) :
    (∀ err, from_new_merge_with_metadata env (l₁ ++ l₂) hero = .error err →
        from_new_merge_with_metadata env (l₁ ++ u :: l₂) hero = .error err) ∧
    (∀ o₂ : Outcome, from_new_merge_with_metadata env (l₁ ++ l₂) hero = .ok o₂ →
        ∃ o₁ : Outcome, from_new_merge_with_metadata env (l₁ ++ u :: l₂) hero = .ok o₁ ∧
          o₁.stacks = o₂.stacks ∧ o₁.conflicting_stacks = o₂.conflicting_stacks ∧
          o₁.workspace_commit_id = o₂.workspace_commit_id ∧
          o₁.missing_stacks.Perm (b.ref_name :: o₂.missing_stacks) ∧
          b.ref_name ∈ o₁.missing_stacks ∧
          b.ref_name ∉ o₁.conflicting_stacks.map ConflictingStack.ref_name) := by
  have hins := preprocess_insert_unresolvable env.resolve u b bs hb hrel hres l₁ l₂
  constructor
  · intro err h
    rw [with_metadata_error_iff] at h ⊢
    cases hp : preprocess env.resolve (l₁ ++ l₂) with
    | error e =>
      unfold from_new_merge_core at h
      rw [hp] at h
      injection h with h₂
      unfold from_new_merge_core
      rw [hins.1 e hp]
      rw [h₂]
    | ok p =>
      obtain ⟨m, tips⟩ := p
      obtain ⟨m₂, hp₂, hperm⟩ := hins.2 m tips hp
      have hcongr := core_congr_preprocess env (l₁ ++ u :: l₂) (l₁ ++ l₂) hero m₂ m tips hp₂ hp
      rw [h] at hcongr
      cases hc₁ : from_new_merge_core env (l₁ ++ u :: l₂) hero with
      | error e₁ =>
        rw [hc₁] at hcongr
        rw [hcongr]
      | ok c₁ =>
        rw [hc₁] at hcongr
        exact absurd hcongr (by simp)
  · intro o₂ h
    obtain ⟨c₂, hc₂, ho₂s, ho₂m, ho₂c, ho₂id⟩ :=
      with_metadata_ok_inv env (l₁ ++ l₂) hero o₂ h
    obtain ⟨m, tips, tipsF, mtid, ptid, hp, hr, hcs, hcc, hcm, -⟩ :=
      core_ok_inv env (l₁ ++ l₂) hero c₂ hc₂
    obtain ⟨m₂, hp₂, hperm⟩ := hins.2 m tips hp
    have hcongr := core_congr_preprocess env (l₁ ++ u :: l₂) (l₁ ++ l₂) hero m₂ m tips hp₂ hp
    rw [hc₂] at hcongr
    cases hc₁ : from_new_merge_core env (l₁ ++ u :: l₂) hero with
    | error e₁ =>
      rw [hc₁] at hcongr
      exact absurd hcongr (by simp)
    | ok c₁ =>
      rw [hc₁] at hcongr
      obtain ⟨hcom, hst, hcf, hm₁, hm₂eq⟩ := hcongr
      refine ⟨{ workspace_commit_id := env.write_object c₁.commit
                «stacks» := c₁.stacks
                missing_stacks := c₁.missing_stacks
                conflicting_stacks := c₁.conflicting_stacks }, ?_, ?_, ?_, ?_, ?_, ?_, ?_⟩
      · unfold from_new_merge_with_metadata
        rw [hc₁]
        rfl
      · rw [ho₂s, hst]
      · rw [ho₂c, hcf]
      · rw [ho₂id, hcom]
      · rw [hm₁, ho₂m, hm₂eq]
        exact hperm
      · rw [hm₁]
        exact hperm.mem_iff.mpr (by simp)
      · rw [hcf, hcc]
        rw [classify_eq]
        intro hmem
        simp only [List.map_map, List.mem_map] at hmem
        obtain ⟨x, hx, hxe⟩ := hmem
        have hx₂ : x ∈ tipsF := List.mem_of_mem_filter hx
        have hkeys := retryLoop_ok_keys env hero (2 * tips.length + 3) false tips tipsF
          mtid ptid hr
        have hxk : tipKey x ∈ tips.map tipKey := by
          rw [← hkeys]
          exact List.mem_map_of_mem tipKey hx₂
        rw [List.mem_map] at hxk
        obtain ⟨y, hy, hyk⟩ := hxk
        have hyres := ((preprocess_ok_facts env.resolve (l₁ ++ l₂) m tips hp).2.1 y hy).1
        have hxy : y.ref_name = x.ref_name := congrArg Prod.fst hyk
        have : x.ref_name = b.ref_name := hxe
        rw [← this, ← hxy] at hres
        rw [hres] at hyres
        exact Option.noConfusion hyres

/-- Witness for C7: inserting the unresolvable `refs/heads/zzz` stack into the
`envA` run records it as missing and changes nothing else. -/
theorem c7_witness :
    ∃ o₁ : Outcome,
      from_new_merge_with_metadata envA
          ([⟨[⟨"refs/heads/a"⟩], .Merged⟩] ++
            (⟨[⟨"refs/heads/zzz"⟩], .Merged⟩ : WorkspaceStack) :: []) none = .ok o₁ ∧
      o₁.stacks = (Outcome.mk 7 [⟨1, some "a"⟩] [] []).stacks ∧
      o₁.conflicting_stacks = (Outcome.mk 7 [⟨1, some "a"⟩] [] []).conflicting_stacks ∧
      o₁.workspace_commit_id = (Outcome.mk 7 [⟨1, some "a"⟩] [] []).workspace_commit_id ∧
      o₁.missing_stacks.Perm
        ("refs/heads/zzz" :: (Outcome.mk 7 [⟨1, some "a"⟩] [] []).missing_stacks) ∧
      "refs/heads/zzz" ∈ o₁.missing_stacks ∧
      "refs/heads/zzz" ∉ o₁.conflicting_stacks.map ConflictingStack.ref_name :=
  (c7_missing_stack envA [⟨[⟨"refs/heads/a"⟩], .Merged⟩] [] ⟨[⟨"refs/heads/zzz"⟩], .Merged⟩
      ⟨"refs/heads/zzz"⟩ [] none rfl rfl (by decide)).2
    ⟨7, [⟨1, some "a"⟩], [], []⟩ (by decide)

/-! ## C2 (corrected): the bucket partition over ref names -/

/-- A list whose image is duplicate-free separates its elements. -/
theorem nodup_map_inj {α β : Type} (f : α → β) :
    ∀ l : List α, (l.map f).Nodup → ∀ a ∈ l, ∀ b ∈ l, f a = f b → a = b := by
  intro l
  induction l with
  | nil => intro _ a ha; simp at ha
  | cons x l ih =>
    intro h a ha b hb hfab
    simp only [List.map_cons, List.nodup_cons] at h
    obtain ⟨hx, hl⟩ := h
    rcases List.mem_cons.mp ha with ha₂ | ha₂
    · rcases List.mem_cons.mp hb with hb₂ | hb₂
      · rw [ha₂, hb₂]
      · subst ha₂
        exact absurd (show f a ∈ List.map f l by
          rw [hfab]; exact List.mem_map_of_mem f hb₂) hx
    · rcases List.mem_cons.mp hb with hb₂ | hb₂
      · subst hb₂
        exact absurd (show f b ∈ List.map f l by
          rw [← hfab]; exact List.mem_map_of_mem f ha₂) hx
      · exact ih hl a ha₂ b hb₂ hfab

/-- Counterexample to C2 as stated: with the stack named `refs/heads/n`
applied twice (`stacksDup`), the successful `envDup` run puts the name `n` in
`Outcome.stacks` (one copy merged in the final pass) and the same ref name in
`Outcome.conflicting_stacks` (the other copy was blamed by a hero restart), so
the buckets are not pairwise disjoint over ref names. -/
theorem c2_counterexample :
    from_new_merge_with_metadata envDup stacksDup (some "refs/heads/h") =
      .ok ⟨7, [⟨3, some "h"⟩, ⟨2, some "n"⟩], [],
        [⟨1, "refs/heads/b"⟩, ⟨2, "refs/heads/n"⟩]⟩ ∧
    "refs/heads/n" ∈ mergedFirstNames stacksDup ∧
    some (shorten "refs/heads/n") ∈
      (Outcome.mk 7 [⟨3, some "h"⟩, ⟨2, some "n"⟩] []
        [⟨1, "refs/heads/b"⟩, ⟨2, "refs/heads/n"⟩]).stacks.map Stack.name ∧
    "refs/heads/n" ∈
      (Outcome.mk 7 [⟨3, some "h"⟩, ⟨2, some "n"⟩] []
        [⟨1, "refs/heads/b"⟩, ⟨2, "refs/heads/n"⟩]).conflicting_stacks.map
          ConflictingStack.ref_name := by
  decide

/-- C2 (amended): for a successful run whose `Merged` input stacks have
pairwise distinct shortened ref names, the three buckets partition the input:
every name recorded missing or conflicting is a `Merged` input name, every
`Merged` input name lands in exactly one of the three buckets (`stacks` being
matched through `shorten`), and every merged stack carries the shortened name
of some `Merged` input stack. Without the distinctness proviso the buckets
can overlap (see the counterexample). -/
theorem c2_partition (env : Env) (stackList : List WorkspaceStack) (hero : Option String)
    (o : Outcome)
    (hok : from_new_merge_with_metadata env stackList hero = .ok o)
    (hnd : ((mergedFirstNames stackList).map shorten).Nodup) :
    (∀ n, (n ∈ o.missing_stacks ∨ n ∈ o.conflicting_stacks.map ConflictingStack.ref_name) →
        n ∈ mergedFirstNames stackList) ∧
    (∀ n ∈ mergedFirstNames stackList,
        exactlyOneOfThree (n ∈ o.missing_stacks)
          (n ∈ o.conflicting_stacks.map ConflictingStack.ref_name)
          (some (shorten n) ∈ o.stacks.map Stack.name)) ∧
    (∀ s ∈ o.stacks, ∃ n ∈ mergedFirstNames stackList, s.name = some (shorten n)) := by
  obtain ⟨c, hc, hos, hom, hoc, -⟩ := with_metadata_ok_inv env stackList hero o hok
  obtain ⟨m, tips, tipsF, mtid, ptid, hp, hr, hcs, hcc, hcm, -⟩ :=
    core_ok_inv env stackList hero c hc
  obtain ⟨hmres, htres, hperm⟩ := preprocess_ok_facts env.resolve stackList m tips hp
  have hkeys := retryLoop_ok_keys env hero (2 * tips.length + 3) false tips tipsF mtid ptid hr
  have hnames : tipsF.map TipEntry.ref_name = tips.map TipEntry.ref_name := by
    have h₂ := congrArg (List.map (fun k : String × Nat × Nat => k.1)) hkeys
    simpa [List.map_map, tipKey, Function.comp] using h₂
  have hndM : (mergedFirstNames stackList).Nodup := hnd.of_map
  have hndMT : (m ++ tips.map TipEntry.ref_name).Nodup := hperm.nodup_iff.mpr hndM
  rw [List.nodup_append] at hndMT
  obtain ⟨hndm, hndt, hdisj⟩ := hndMT
  have hndtF : (tipsF.map TipEntry.ref_name).Nodup := by rw [hnames]; exact hndt
  have hmem : ∀ n, n ∈ mergedFirstNames stackList ↔
      (n ∈ m ∨ n ∈ tips.map TipEntry.ref_name) := by
    intro n
    rw [← hperm.mem_iff, List.mem_append]
  have hmiss : o.missing_stacks = m := by rw [hom, hcm]
  have hstacks : o.stacks = (tipsF.filter (fun e => !e.mode.should_skip)).map
      (fun e => { tip := e.commit_id, name := some (shorten e.ref_name) }) := by
    rw [hos, hcs, classify_eq]
  have hconfl : o.conflicting_stacks = (tipsF.filter (fun e => e.mode.should_skip)).map
      (fun e => { tip := e.commit_id, ref_name := e.ref_name }) := by
    rw [hoc, hcc, classify_eq]
  have hconflN : ∀ n, n ∈ o.conflicting_stacks.map ConflictingStack.ref_name ↔
      ∃ x ∈ tipsF, x.mode.should_skip ∧ x.ref_name = n := by
    intro n
    rw [hconfl, List.map_map]
    constructor
    · intro hn
      rw [List.mem_map] at hn
      obtain ⟨x, hx, hxe⟩ := hn
      rw [List.mem_filter] at hx
      exact ⟨x, hx.1, hx.2, hxe⟩
    · rintro ⟨x, hx, hxs, hxe⟩
      rw [List.mem_map]
      exact ⟨x, List.mem_filter.mpr ⟨hx, hxs⟩, hxe⟩
  have hstackN : ∀ v, v ∈ o.stacks.map Stack.name ↔
      ∃ x ∈ tipsF, ¬x.mode.should_skip ∧ some (shorten x.ref_name) = v := by
    intro v
    rw [hstacks, List.map_map]
    constructor
    · intro hv
      rw [List.mem_map] at hv
      obtain ⟨x, hx, hxe⟩ := hv
      rw [List.mem_filter] at hx
      exact ⟨x, hx.1, by simpa using hx.2, hxe⟩
    · rintro ⟨x, hx, hxs, hxe⟩
      rw [List.mem_map]
      exact ⟨x, List.mem_filter.mpr ⟨hx, by simpa using hxs⟩, hxe⟩
  have htipsFmem : ∀ x ∈ tipsF, x.ref_name ∈ mergedFirstNames stackList := by
    intro x hx
    rw [hmem]
    right
    rw [← hnames]
    exact List.mem_map_of_mem TipEntry.ref_name hx
  refine ⟨?_, ?_, ?_⟩
  · intro n hn
    rcases hn with hn | hn
    · rw [hmiss] at hn
      exact (hmem n).mpr (Or.inl hn)
    · obtain ⟨x, hx, -, hxe⟩ := (hconflN n).mp hn
      exact hxe ▸ htipsFmem x hx
  · intro n hn
    rcases (hmem n).mp hn with hnm | hnt
    · refine ⟨Or.inl (by rw [hmiss]; exact hnm), ?_, ?_, ?_⟩
      · rintro ⟨-, h₂⟩
        obtain ⟨x, hx, -, hxe⟩ := (hconflN n).mp h₂
        have : n ∈ tips.map TipEntry.ref_name := by
          rw [← hnames, ← hxe]
          exact List.mem_map_of_mem TipEntry.ref_name hx
        exact hdisj hnm this
      · rintro ⟨-, h₂⟩
        obtain ⟨x, hx, -, hxe⟩ := (hstackN (some (shorten n))).mp h₂
        have hsh : shorten x.ref_name = shorten n := by injection hxe
        have hxM : x.ref_name ∈ mergedFirstNames stackList := htipsFmem x hx
        have : x.ref_name = n := nodup_map_inj shorten _ hnd x.ref_name hxM n hn hsh
        have hnt : n ∈ tips.map TipEntry.ref_name := by
          rw [← hnames, ← this]
          exact List.mem_map_of_mem TipEntry.ref_name hx
        exact hdisj hnm hnt
      · rintro ⟨h₁, -⟩
        obtain ⟨x, hx, -, hxe⟩ := (hconflN n).mp h₁
        have : n ∈ tips.map TipEntry.ref_name := by
          rw [← hnames, ← hxe]
          exact List.mem_map_of_mem TipEntry.ref_name hx
        exact hdisj hnm this
    · have hnF : n ∈ tipsF.map TipEntry.ref_name := by rw [hnames]; exact hnt
      rw [List.mem_map] at hnF
      obtain ⟨x, hx, hxn⟩ := hnF
      refine ⟨?_, ?_, ?_, ?_⟩
      · by_cases hxs : x.mode.should_skip
        · exact Or.inr (Or.inl ((hconflN n).mpr ⟨x, hx, hxs, hxn⟩))
        · exact Or.inr (Or.inr ((hstackN (some (shorten n))).mpr
            ⟨x, hx, hxs, by rw [hxn]⟩))
      · rintro ⟨h₁, -⟩
        rw [hmiss] at h₁
        exact hdisj h₁ hnt
      · rintro ⟨h₁, -⟩
        rw [hmiss] at h₁
        exact hdisj h₁ hnt
      · rintro ⟨h₁, h₂⟩
        obtain ⟨x₁, hx₁, hx₁s, hx₁e⟩ := (hconflN n).mp h₁
        obtain ⟨x₂, hx₂, hx₂s, hx₂e⟩ := (hstackN (some (shorten n))).mp h₂
        have hsh : shorten x₂.ref_name = shorten n := by injection hx₂e
        have hx₂M : x₂.ref_name ∈ mergedFirstNames stackList := htipsFmem x₂ hx₂
        have hx₂n : x₂.ref_name = n := nodup_map_inj shorten _ hnd x₂.ref_name hx₂M n hn hsh
        have hx₁₂ : x₁ = x₂ :=
          nodup_map_inj TipEntry.ref_name tipsF hndtF x₁ hx₁ x₂ hx₂ (by rw [hx₁e, hx₂n])
        rw [hx₁₂] at hx₁s
        exact hx₂s hx₁s
  · intro s hs
    rw [hstacks] at hs
    rw [List.mem_map] at hs
    obtain ⟨x, hx, hxe⟩ := hs
    rw [List.mem_filter] at hx
    refine ⟨x.ref_name, htipsFmem x hx.1, ?_⟩
    rw [← hxe]

/-- Witness for the amended C2 at the clean two-stack `envA` run. -/
theorem c2_witness :
    (∀ n, (n ∈ (Outcome.mk 7 [⟨1, some "a"⟩, ⟨2, some "b"⟩] [] []).missing_stacks ∨
        n ∈ (Outcome.mk 7 [⟨1, some "a"⟩, ⟨2, some "b"⟩] [] []).conflicting_stacks.map
          ConflictingStack.ref_name) →
        n ∈ mergedFirstNames stacksAB) ∧
    (∀ n ∈ mergedFirstNames stacksAB,
        exactlyOneOfThree
          (n ∈ (Outcome.mk 7 [⟨1, some "a"⟩, ⟨2, some "b"⟩] [] []).missing_stacks)
          (n ∈ (Outcome.mk 7 [⟨1, some "a"⟩, ⟨2, some "b"⟩] [] []).conflicting_stacks.map
            ConflictingStack.ref_name)
          (some (shorten n) ∈
            (Outcome.mk 7 [⟨1, some "a"⟩, ⟨2, some "b"⟩] [] []).stacks.map Stack.name)) ∧
    (∀ s ∈ (Outcome.mk 7 [⟨1, some "a"⟩, ⟨2, some "b"⟩] [] []).stacks,
        ∃ n ∈ mergedFirstNames stacksAB, s.name = some (shorten n)) :=
  c2_partition envA stacksAB none ⟨7, [⟨1, some "a"⟩, ⟨2, some "b"⟩], [], []⟩
    (by decide) (by decide)

end ButWorkspace
